import Mathlib

/-! NOTAM lists (`src/notam/NotamList.cpp`)

A shallow embedding of `NOTAM::NotamList`: the constructor that filters a JSON
batch, `cleaned`, `restricted` and the comparator that `restricted` hands to
`std::sort`.

Everything `NotamList.cpp` calls but does not define is collected in `Env`:
the accessors of `NOTAM::Notam`, the geographic library, the read-state
provider, the constant `restrictionRadius`, the clock and `std::sort`.
Lengths (`double` in the source) live in a linearly ordered additive group `D`;
a `QList` is a `List`, a `QSet<QString>` is a `Finset String`.
-/

namespace NOTAM

/-! ## JSON values (QJsonValue, QJsonDocument) -/

/-- A JSON value as QJsonValue presents it; `undefined` is what a failed lookup returns. -/
inductive Json where
  | null
  | undefined
  | bool (b : Bool)
  | num (x : ℚ)
  | str (s : String)
  | arr (xs : List Json)
  | obj (kvs : List (String × Json))

/-- A JSON object: keys with their values. -/
abbrev JsonObject := List (String × Json)

/-- The call `QJsonValue::toArray()`: the array, or an empty array for any other value. -/
def Json.toArray : Json → List Json
  | .arr xs => xs
  | _ => []

/-- The call `QJsonValue::toObject()`: the object, or an empty object for any other value. -/
def Json.toObject : Json → JsonObject
  | .obj kvs => kvs
  | _ => []

/-- The lookup `QJsonDocument::operator[](key)`: the member of an object document, else undefined. -/
def Json.index (doc : Json) (key : String) : Json :=
  match doc with
  | .obj kvs => (kvs.lookup key).getD .undefined
  | _ => .undefined

/-! ## Qt helpers -/

/-- The template `qMax(a, b)` of QtGlobal: `(a < b) ? b : a`. -/
def qMax {α : Type} [LinearOrder α] (a b : α) : α := if a < b then b else a

/-- The template `qMin(a, b)` of QtGlobal: `(a < b) ? a : b`. -/
def qMin {α : Type} [LinearOrder α] (a b : α) : α := if a < b then a else b

/-- The call `QString::contains(QString)`: `t` occurs in `s` as a contiguous substring. -/
def qContains (s t : String) : Bool :=
  s.toList.tails.any (fun u => t.toList.isPrefixOf u)

/-- A `QGeoCircle`: centre and radius in metres. -/
structure QGeoCircle (P D : Type) where
  center : P
  radius : D
  deriving DecidableEq

/-! ## The environment of `NotamList.cpp` -/

/-- Everything `NotamList.cpp` uses and does not define. `N` is `NOTAM::Notam`, `T` is
`QDateTime` (compared by instant), `P` is `QGeoCoordinate`, `G` is `QGeoShape`, `W` is
`GeoMaps::Waypoint` and `D` is the type of lengths in metres. -/
structure Env (N T P G W D : Type) where
  /-- Accessor `Notam::number()`. -/
  number : N → String
  /-- Accessor `Notam::cancels()`: the number this notice cancels, empty if none. -/
  cancels : N → String
  /-- Accessor `Notam::traffic()`. -/
  traffic : N → String
  /-- Accessor `Notam::coordinate()`. -/
  coordinate : N → P
  /-- Accessor `Notam::region()`. -/
  region : N → G
  /-- Accessor `Notam::effectiveStart()`. -/
  effectiveStart : N → T
  /-- Accessor `Notam::effectiveEnd()`. -/
  effectiveEnd : N → T
  /-- Predicate `Notam::isValid()`. -/
  isValid : N → Bool
  /-- Predicate `Notam::isOutdated()`, at the time the clock shows. -/
  isOutdated : T → N → Bool
  /-- Constructor `Notam(const QJsonObject&)`. -/
  parse : JsonObject → N
  /-- The call `QGeoCoordinate::distanceTo`, in metres. -/
  distanceTo : P → P → D
  /-- The call `QGeoShape::contains`. -/
  contains : G → P → Bool
  /-- Accessor `Waypoint::coordinate()`. -/
  wpCoordinate : W → P
  /-- The constant `restrictionRadius.toM()` of `NotamList.h`. -/
  restrictionRadius : D
  /-- The query `GlobalObject::notamProvider()->isRead(number)`. -/
  isRead : String → Bool
  /-- The clock: `QDateTime::currentDateTime()` and `currentDateTimeUtc()`, held fixed. -/
  now : T
  /-- The algorithm `std::sort(first, last, comp)`, as a function from the range to the
  sorted range. -/
  stdSort : (N → N → Bool) → List N → List N

/-- A `NOTAM::NotamList`. -/
structure NotamList (N T P D : Type) where
  m_notams : List N
  m_region : QGeoCircle P D
  m_retrieved : T
  deriving DecidableEq

section Model

variable {N T P G W D : Type} [DecidableEq N] [LinearOrder T] [LinearOrderedAddCommGroup D]

/-! ## Constructor -/

/-- The variables the constructor's loop updates: `m_notams`, `numbersSeen` and the set
behind the pointer `cancelledNotamNumbers` (`none` for `nullptr`). -/
structure CtorState (N : Type) where
  m_notams : List N
  numbersSeen : Finset String
  cancelled : Option (Finset String)

/-- One iteration of the loop `foreach(auto item, items)` of the constructor. -/
def ctorStep (env : Env N T P G W D) (st : CtorState N) (item : Json) : CtorState N :=
  let notam := env.parse item.toObject
  if !env.isValid notam then st
  else if env.cancels notam != "" then
    match st.cancelled with
    | some c => { st with cancelled := some (insert (env.cancels notam) c) }
    | none => st
  else if env.isOutdated env.now notam then st
  else if !qContains (env.traffic notam) "V" then st
  else if env.number notam ∈ st.numbersSeen then st
  else { st with m_notams := st.m_notams ++ [notam],
                 numbersSeen := insert (env.number notam) st.numbersSeen }

/-- The array `jsonDoc[u"items"].toArray()`. -/
def docItems (jsonDoc : Json) : List Json := (jsonDoc.index "items").toArray

/-- The whole loop of the constructor, started from empty `m_notams` and `numbersSeen`. -/
def ctorLoop (env : Env N T P G W D) (jsonDoc : Json) (cancelledNotamNumbers : Option (Finset String)) :
    CtorState N :=
  (docItems jsonDoc).foldl (ctorStep env) ⟨[], ∅, cancelledNotamNumbers⟩

/-- The constructor `NotamList(jsonDoc, region, cancelledNotamNumbers)`. It returns the list
and the final content of the set behind `cancelledNotamNumbers`. -/
def NotamList.construct (env : Env N T P G W D) (jsonDoc : Json) (region : QGeoCircle P D)
    (cancelledNotamNumbers : Option (Finset String)) :
    NotamList N T P D × Option (Finset String) :=
  let st := ctorLoop env jsonDoc cancelledNotamNumbers
  (⟨st.m_notams, region, env.now⟩, st.cancelled)

/-! ## cleaned -/

/-- One iteration of the loop of `cleaned`; `acc` is `result.m_notams`. -/
def cleanedStep (env : Env N T P G W D) (cancelledNotamNumbers : Finset String)
    (acc : List N) (notam : N) : List N :=
  if !env.isValid notam then acc
  else if env.isOutdated env.now notam then acc
  else if env.number notam ∈ cancelledNotamNumbers then acc
  else if acc.contains notam then acc
  else acc ++ [notam]

/-- The method `NotamList::cleaned(cancelledNotamNumbers)`. -/
def NotamList.cleaned (env : Env N T P G W D) (l : NotamList N T P D)
    (cancelledNotamNumbers : Finset String) : NotamList N T P D :=
  { m_notams := l.m_notams.foldl (cleanedStep env cancelledNotamNumbers) [],
    m_region := l.m_region,
    m_retrieved := l.m_retrieved }

/-! ## restricted -/

/-- One iteration of the filter loop of `restricted`; `acc` is `result.m_notams`. -/
def restrictedStep (env : Env N T P G W D) (waypoint : W) (acc : List N) (notam : N) : List N :=
  if !env.isValid notam then acc
  else if env.isOutdated env.now notam then acc
  else if env.distanceTo (env.coordinate notam) (env.wpCoordinate waypoint) > env.restrictionRadius
    then acc
  else if acc.contains notam then acc
  else if !env.contains (env.region notam) (env.wpCoordinate waypoint) then acc
  else acc ++ [notam]

/-- The entries `restricted` has collected when its filter loop ends, before sorting. -/
def restrictedKept (env : Env N T P G W D) (l : NotamList N T P D) (waypoint : W) : List N :=
  l.m_notams.foldl (restrictedStep env waypoint) []

/-- The lambda `restricted` passes to `std::sort`. -/
def sortLess (env : Env N T P G W D) (first second : N) : Bool :=
  let aRead := env.isRead (env.number first)
  let bRead := env.isRead (env.number second)
  if aRead != bRead then !aRead
  else
    let cur := env.now
    let a_effectiveStart := qMax (env.effectiveStart first) cur
    let b_effectiveStart := qMax (env.effectiveStart second) cur
    if a_effectiveStart != b_effectiveStart then decide (a_effectiveStart < b_effectiveStart)
    else decide (env.effectiveEnd first < env.effectiveEnd second)

/-- The radius `restricted` gives the new region. -/
def restrictedRadius (env : Env N T P G W D) (l : NotamList N T P D) (waypoint : W) : D :=
  qMin env.restrictionRadius
    (qMax 0 (l.m_region.radius - env.distanceTo l.m_region.center (env.wpCoordinate waypoint)))

/-- The method `NotamList::restricted(waypoint)`. -/
def NotamList.restricted (env : Env N T P G W D) (l : NotamList N T P D) (waypoint : W) :
    NotamList N T P D :=
  { m_retrieved := l.m_retrieved,
    m_region := ⟨env.wpCoordinate waypoint, restrictedRadius env l waypoint⟩,
    m_notams := env.stdSort (sortLess env) (restrictedKept env l waypoint) }

/-! ## Vocabulary of the properties -/

/-- The four conditions the constructor puts on an entry before it looks at its number. -/
def Admissible (env : Env N T P G W D) (n : N) : Prop :=
  env.isValid n = true ∧ env.cancels n = "" ∧ env.isOutdated env.now n = false ∧
    qContains (env.traffic n) "V" = true

instance (env : Env N T P G W D) (n : N) : Decidable (Admissible env n) := by
  unfold Admissible
  infer_instance

/-- What holds of the constructor's variables after every iteration. -/
def CtorInv (env : Env N T P G W D) (st : CtorState N) : Prop :=
  (∀ n ∈ st.m_notams, Admissible env n) ∧
  (∀ s, s ∈ st.numbersSeen ↔ s ∈ st.m_notams.map env.number) ∧
  (st.m_notams.map env.number).Nodup

/-- The Notam the constructor builds from one element of the items array. -/
def itemNotam (env : Env N T P G W D) (item : Json) : N := env.parse item.toObject

/-- The cancellation targets of a batch: `cancels()` of every item that is valid and has a
non-empty `cancels()`. -/
def harvested (env : Env N T P G W D) (items : List Json) : Finset String :=
  (((items.map (itemNotam env)).filter
      (fun n => env.isValid n && env.cancels n != "")).map env.cancels).toFinset

/-- The loop body shared by `cleaned` and `restricted`: append `n` when it passes `p` and
no equal element is in `acc` yet. -/
def keepStep (p : N → Bool) (acc : List N) (n : N) : List N :=
  if p n = true ∧ n ∉ acc then acc ++ [n] else acc

/-- The conditions `cleaned` puts on an entry, apart from not being in the result yet. -/
def cleanedKeeps (env : Env N T P G W D) (cancelledNotamNumbers : Finset String) (n : N) : Bool :=
  env.isValid n && !env.isOutdated env.now n && decide (env.number n ∉ cancelledNotamNumbers)

/-- The conditions `restricted` puts on an entry, apart from not being in the result yet. -/
def restrictedKeeps (env : Env N T P G W D) (waypoint : W) (n : N) : Bool :=
  env.isValid n && !env.isOutdated env.now n &&
    decide (env.distanceTo (env.coordinate n) (env.wpCoordinate waypoint) ≤ env.restrictionRadius) &&
    env.contains (env.region n) (env.wpCoordinate waypoint)

/-- The three keys of the comparator as one value, ordered lexicographically: read state
(unread `false` before read `true`), start clamped to the clock, end. -/
def sortKey (env : Env N T P G W D) (n : N) : Lex (Bool × Lex (T × T)) :=
  toLex (env.isRead (env.number n), toLex (max (env.effectiveStart n) env.now, env.effectiveEnd n))

/-- Equality of two notices under all three keys of the comparator. -/
def sameKeys (env : Env N T P G W D) (a b : N) : Bool :=
  env.isRead (env.number a) == env.isRead (env.number b) &&
    decide (max (env.effectiveStart a) env.now = max (env.effectiveStart b) env.now) &&
    decide (env.effectiveEnd a = env.effectiveEnd b)

/-- The order of the second and third key: earlier clamped start first, then earlier end. -/
def KeyLE (env : Env N T P G W D) (a b : N) : Prop :=
  max (env.effectiveStart a) env.now < max (env.effectiveStart b) env.now ∨
    (max (env.effectiveStart a) env.now = max (env.effectiveStart b) env.now ∧
      env.effectiveEnd a ≤ env.effectiveEnd b)

end Model

/-! ## summary -/

section Summary

variable {N T P D : Type}

/-- The method `NotamList::summary()`. `tr` is `QObject::tr`; `isValid` and `isOutdated` are
the predicates of `NotamList` that `NotamList.h` declares. -/
def NotamList.summary (tr : String → String) (isValid isOutdated : NotamList N T P D → Bool)
    (l : NotamList N T P D) : String :=
  let results : List String := []
  let results :=
    if l.m_notams.isEmpty then results ++ [tr "No NOTAMs known"]
    else results ++ [tr "NOTAMs available"]
  let results :=
    if !isValid l || isOutdated l then results ++ [tr "Update requested."]
    else results
  String.intercalate " • " results

end Summary

/-! ## Serialization -/

/-- A byte of a data stream. -/
abbrev Byte := Fin 256

/-- A `QDataStream`: the bytes of its device (those written so far, or those not yet read)
and whether `status()` is `Ok`. -/
structure QDataStream where
  data : List Byte
  ok : Bool
  deriving DecidableEq

/-- The stream operators Qt provides for the type of one field: the bytes `operator<<`
writes, what `operator>>` decodes from the front of the unread bytes (`none` when they are
corrupt or too short), and what a failed `operator>>` leaves in its target and in the
device. -/
structure Codec (α : Type) where
  encode : α → List Byte
  decode : List Byte → Option (α × List Byte)
  failed : List Byte → α → α × List Byte

/-- The call `stream << x` for one field: nothing is written once the status is not `Ok`. -/
def Codec.put {α : Type} (c : Codec α) (stream : QDataStream) (x : α) : QDataStream :=
  if stream.ok then { stream with data := stream.data ++ c.encode x } else stream

/-- The call `stream >> target` for one field: a decoded value replaces the target, a
failure sets the status, and a status that is not `Ok` stays so. -/
def Codec.get {α : Type} (c : Codec α) (stream : QDataStream) (target : α) : QDataStream × α :=
  match c.decode stream.data with
  | some (x, rest) => (⟨rest, stream.ok⟩, x)
  | none => (⟨(c.failed stream.data target).2, false⟩, (c.failed stream.data target).1)

/-- A codec reads back what it wrote and stops where its own bytes end. -/
def Codec.RoundTrips {α : Type} (c : Codec α) : Prop :=
  ∀ (x : α) (rest : List Byte), c.decode (c.encode x ++ rest) = some (x, rest)

section Serialization

variable {N T P D : Type}

/-- The operator `operator<<(QDataStream&, const NotamList&)`. -/
def streamOut (cNotams : Codec (List N)) (cRegion : Codec (QGeoCircle P D)) (cRetrieved : Codec T)
    (stream : QDataStream) (notamList : NotamList N T P D) : QDataStream :=
  let stream := cNotams.put stream notamList.m_notams
  let stream := cRegion.put stream notamList.m_region
  let stream := cRetrieved.put stream notamList.m_retrieved
  stream

/-- The operator `operator>>(QDataStream&, NotamList&)`; the second component is the
`NotamList` it has written into. -/
def streamIn (cNotams : Codec (List N)) (cRegion : Codec (QGeoCircle P D)) (cRetrieved : Codec T)
    (stream : QDataStream) (notamList : NotamList N T P D) : QDataStream × NotamList N T P D :=
  let r1 := cNotams.get stream notamList.m_notams
  let notamList := { notamList with m_notams := r1.2 }
  let r2 := cRegion.get r1.1 notamList.m_region
  let notamList := { notamList with m_region := r2.2 }
  let r3 := cRetrieved.get r2.1 notamList.m_retrieved
  let notamList := { notamList with m_retrieved := r3.2 }
  (r3.1, notamList)

end Serialization

/-! ## First occurrences -/

/-- The elements of a list that are the first with their key, in the order of the list. -/
def firstOfEach {α κ : Type} [DecidableEq κ] (key : α → κ) : List α → List α
  | [] => []
  | a :: l => a :: (firstOfEach key l).filter (fun b => decide (key b ≠ key a))

/-! ## The contract of `std::sort` -/

/-- The requirement `std::sort` puts on its comparator: a strict weak ordering. It is
irreflexive, transitive, and being incomparable is transitive. -/
def StrictWeakOrdering {α : Type} (lt : α → α → Bool) : Prop :=
  (∀ a, lt a a = false) ∧
  (∀ a b c, lt a b = true → lt b c = true → lt a c = true) ∧
  (∀ a b c, lt a b = false → lt b a = false → lt b c = false → lt c b = false →
    lt a c = false ∧ lt c a = false)

/-- What the C++ standard promises of `std::sort`: for a strict weak ordering the result is
a rearrangement of the range in which no element is followed by one that comes before it.
Nothing is promised about the order of elements neither of which comes before the other. -/
def StdSortContract {α : Type} (sort : (α → α → Bool) → List α → List α) : Prop :=
  ∀ (lt : α → α → Bool) (xs : List α), StrictWeakOrdering lt →
    (sort lt xs).Perm xs ∧ (sort lt xs).Pairwise (fun a b => lt b a = false)

/-! ## A sorting algorithm that fits `std::sort` -/

/-- Insert `a` in front of the first element that does not come before it. -/
def insertSorted {α : Type} (lt : α → α → Bool) (a : α) : List α → List α
  | [] => [a]
  | b :: l => if lt b a then b :: insertSorted lt a l else a :: b :: l

/-- Insertion sort that keeps equal elements in their input order. -/
def stableSort {α : Type} (lt : α → α → Bool) : List α → List α
  | [] => []
  | a :: l => insertSorted lt a (stableSort lt l)

/-! ## `std::sort` as GNU libstdc++ implements it (`bits/stl_algo.h`, `bits/stl_heap.h`)

A range `[first, last)` of iterators is a list with two positions. Loops whose number of
iterations is not fixed in advance run on a counter that is large enough for them. -/

namespace Gnu

variable {α : Type}

/-- The call `comp(i, j)` on two iterators; false outside the range. -/
def compAt (comp : α → α → Bool) (xs : List α) (i j : Nat) : Bool :=
  match xs[i]?, xs[j]? with
  | some a, some b => comp a b
  | _, _ => false

/-- The call `std::iter_swap(i, j)`. -/
def iterSwap (xs : List α) (i j : Nat) : List α :=
  match xs[i]?, xs[j]? with
  | some a, some b => (xs.set i b).set j a
  | _, _ => xs

/-- The assignment `*(i) = std::move(*(j))`. -/
def moveTo (xs : List α) (i j : Nat) : List α :=
  match xs[j]? with
  | some b => xs.set i b
  | none => xs

/-- The function `__move_median_to_first(result, a, b, c, comp)`. -/
def moveMedianToFirst (comp : α → α → Bool) (xs : List α) (result a b c : Nat) : List α :=
  if compAt comp xs a b then
    if compAt comp xs b c then iterSwap xs result b
    else if compAt comp xs a c then iterSwap xs result c
    else iterSwap xs result a
  else if compAt comp xs a c then iterSwap xs result a
  else if compAt comp xs b c then iterSwap xs result c
  else iterSwap xs result b

/-- The loop `while (comp(first, pivot)) ++first;`. -/
def advance (comp : α → α → Bool) (xs : List α) (pivot : Nat) : Nat → Nat → Nat
  | 0, first => first
  | fuel + 1, first =>
    if compAt comp xs first pivot then advance comp xs pivot fuel (first + 1) else first

/-- The loop `while (comp(pivot, last)) --last;`. -/
def retreat (comp : α → α → Bool) (xs : List α) (pivot : Nat) : Nat → Nat → Nat
  | 0, last => last
  | fuel + 1, last =>
    if compAt comp xs pivot last then retreat comp xs pivot fuel (last - 1) else last

/-- The function `__unguarded_partition(first, last, pivot, comp)`; it returns the range
and the cut. -/
def unguardedPartition (comp : α → α → Bool) (pivot : Nat) :
    Nat → List α → Nat → Nat → List α × Nat
  | 0, xs, first, _ => (xs, first)
  | fuel + 1, xs, first, last =>
    let first := advance comp xs pivot xs.length first
    let last := last - 1
    let last := retreat comp xs pivot xs.length last
    if !(first < last) then (xs, first)
    else unguardedPartition comp pivot fuel (iterSwap xs first last) (first + 1) last

/-- The function `__unguarded_partition_pivot(first, last, comp)`. -/
def unguardedPartitionPivot (comp : α → α → Bool) (xs : List α) (first last : Nat) :
    List α × Nat :=
  let mid := first + (last - first) / 2
  let xs := moveMedianToFirst comp xs first (first + 1) mid (last - 1)
  unguardedPartition comp first xs.length xs (first + 1) last

/-- The function `__push_heap(first, holeIndex, topIndex, value, comp)`. -/
def pushHeap (comp : α → α → Bool) (first topIndex : Nat) (value : α) :
    Nat → List α → Nat → List α
  | 0, xs, holeIndex => xs.set (first + holeIndex) value
  | fuel + 1, xs, holeIndex =>
    let parent := (holeIndex - 1) / 2
    match xs[first + parent]? with
    | some p =>
      if holeIndex > topIndex && comp p value then
        pushHeap comp first topIndex value fuel (xs.set (first + holeIndex) p) parent
      else xs.set (first + holeIndex) value
    | none => xs.set (first + holeIndex) value

/-- The first loop of `__adjust_heap`; it returns the range, `holeIndex` and `secondChild`. -/
def siftDown (comp : α → α → Bool) (first len : Nat) :
    Nat → List α → Nat → Nat → List α × Nat × Nat
  | 0, xs, holeIndex, secondChild => (xs, holeIndex, secondChild)
  | fuel + 1, xs, holeIndex, secondChild =>
    if secondChild < (len - 1) / 2 then
      let secondChild := 2 * (secondChild + 1)
      let secondChild :=
        if compAt comp xs (first + secondChild) (first + (secondChild - 1)) then secondChild - 1
        else secondChild
      siftDown comp first len fuel (moveTo xs (first + holeIndex) (first + secondChild))
        secondChild secondChild
    else (xs, holeIndex, secondChild)

/-- The function `__adjust_heap(first, holeIndex, len, value, comp)`. -/
def adjustHeap (comp : α → α → Bool) (xs : List α) (first holeIndex len : Nat) (value : α) :
    List α :=
  let topIndex := holeIndex
  let r := siftDown comp first len len xs holeIndex holeIndex
  let xs := r.1
  let holeIndex := r.2.1
  let secondChild := r.2.2
  if len % 2 == 0 && secondChild == (len - 2) / 2 then
    let secondChild := 2 * (secondChild + 1)
    pushHeap comp first topIndex value len
      (moveTo xs (first + holeIndex) (first + (secondChild - 1))) (secondChild - 1)
  else pushHeap comp first topIndex value len xs holeIndex

/-- The loop of `__make_heap`, from `parent` down to 0. -/
def makeHeapLoop (comp : α → α → Bool) (first len : Nat) : Nat → List α → List α
  | 0, xs =>
    match xs[first]? with
    | some value => adjustHeap comp xs first 0 len value
    | none => xs
  | parent + 1, xs =>
    match xs[first + (parent + 1)]? with
    | some value => makeHeapLoop comp first len parent (adjustHeap comp xs first (parent + 1) len value)
    | none => xs

/-- The function `__make_heap(first, last, comp)`. -/
def makeHeap (comp : α → α → Bool) (xs : List α) (first last : Nat) : List α :=
  if last - first < 2 then xs
  else makeHeapLoop comp first (last - first) ((last - first - 2) / 2) xs

/-- The function `__pop_heap(first, last, result, comp)`. -/
def popHeap (comp : α → α → Bool) (xs : List α) (first last result : Nat) : List α :=
  match xs[result]? with
  | some value => adjustHeap comp (moveTo xs result first) first 0 (last - first) value
  | none => xs

/-- The function `__sort_heap(first, last, comp)`. -/
def sortHeap (comp : α → α → Bool) (first : Nat) : Nat → List α → Nat → List α
  | 0, xs, _ => xs
  | fuel + 1, xs, last =>
    if last - first > 1 then
      sortHeap comp first fuel (popHeap comp xs first (last - 1) (last - 1)) (last - 1)
    else xs

/-- The function `__partial_sort(first, middle, last, comp)` for `middle = last`, the only
call `__introsort_loop` makes: the loop of `__heap_select` over `[middle, last)` is empty. -/
def partialSort (comp : α → α → Bool) (xs : List α) (first last : Nat) : List α :=
  sortHeap comp first (last - first) (makeHeap comp xs first last) last

/-- The function `__introsort_loop(first, last, depth_limit, comp)`. -/
def introsortLoop (comp : α → α → Bool) : Nat → List α → Nat → Nat → List α
  | 0, xs, first, last =>
    if last - first > 16 then partialSort comp xs first last else xs
  | depthLimit + 1, xs, first, last =>
    if last - first > 16 then
      let r := unguardedPartitionPivot comp xs first last
      let xs := introsortLoop comp depthLimit r.1 r.2 last
      introsortLoop comp depthLimit xs first r.2
    else xs

/-- The function `__unguarded_linear_insert(last, comp)` with `val` already taken out of
`*last`. -/
def unguardedLinearInsert (comp : α → α → Bool) (val : α) : Nat → List α → List α
  | 0, xs => xs.set 0 val
  | next + 1, xs =>
    match xs[next]? with
    | some e =>
      if comp val e then unguardedLinearInsert comp val next (xs.set (next + 1) e)
      else xs.set (next + 1) val
    | none => xs.set (next + 1) val

/-- The branch of `__insertion_sort` that moves `[first, i)` one place back and puts `val`
at `first`. -/
def moveBackward (xs : List α) (first i : Nat) (val : α) : List α :=
  xs.take first ++ val :: ((xs.drop first).take (i - first) ++ xs.drop (i + 1))

/-- The loop of `__insertion_sort`: `count` iterations starting at `i`. -/
def insertionLoop (comp : α → α → Bool) (first : Nat) : Nat → Nat → List α → List α
  | 0, _, xs => xs
  | count + 1, i, xs =>
    match xs[i]?, xs[first]? with
    | some val, some f =>
      if comp val f then insertionLoop comp first count (i + 1) (moveBackward xs first i val)
      else insertionLoop comp first count (i + 1) (unguardedLinearInsert comp val i xs)
    | _, _ => xs

/-- The function `__insertion_sort(first, last, comp)`. -/
def insertionSort (comp : α → α → Bool) (xs : List α) (first last : Nat) : List α :=
  if first == last then xs else insertionLoop comp first (last - (first + 1)) (first + 1) xs

/-- The function `__unguarded_insertion_sort(first, last, comp)`: `count` iterations
starting at `i`. -/
def unguardedInsertionSort (comp : α → α → Bool) : Nat → Nat → List α → List α
  | 0, _, xs => xs
  | count + 1, i, xs =>
    match xs[i]? with
    | some val => unguardedInsertionSort comp count (i + 1) (unguardedLinearInsert comp val i xs)
    | none => xs

/-- The function `__final_insertion_sort(first, last, comp)`. -/
def finalInsertionSort (comp : α → α → Bool) (xs : List α) (first last : Nat) : List α :=
  if last - first > 16 then
    unguardedInsertionSort comp (last - (first + 16)) (first + 16)
      (insertionSort comp xs first (first + 16))
  else insertionSort comp xs first last

/-- The halving behind `std::__lg`. -/
def lgLoop : Nat → Nat → Nat
  | 0, _ => 0
  | fuel + 1, n => if n < 2 then 0 else lgLoop fuel (n / 2) + 1

/-- The function `std::__lg(n)`: the position of the highest bit set in `n`. -/
def lg (n : Nat) : Nat := lgLoop n n

/-- The function `std::sort(first, last, comp)` on a whole container. -/
def sort (comp : α → α → Bool) (xs : List α) : List α :=
  if xs.length = 0 then xs
  else finalInsertionSort comp (introsortLoop comp (lg xs.length * 2) xs 0 xs.length)
    0 xs.length

end Gnu

/-! ## A world on a line

Coordinates and times are integers, a region is an interval, every accessor of a notice
is a stored field. The properties below are tried out in this world. -/

namespace Line

/-- A notice of the line world. -/
structure Notam where
  number : String
  cancels : String
  traffic : String
  coordinate : ℤ
  radius : ℤ
  effectiveStart : ℤ
  effectiveEnd : ℤ
  deriving DecidableEq

/-- The string member `key` of a JSON object, empty when absent or not a string. -/
def strField (o : JsonObject) (key : String) : String :=
  match o.lookup key with
  | some (.str s) => s
  | _ => ""

/-- The numeric member `key` of a JSON object rounded down, zero when absent or not a number. -/
def intField (o : JsonObject) (key : String) : ℤ :=
  match o.lookup key with
  | some (.num x) => x.floor
  | _ => 0

/-- Read a notice from a JSON object. -/
def parse (o : JsonObject) : Notam :=
  { number := strField o "number",
    cancels := strField o "cancels",
    traffic := strField o "traffic",
    coordinate := intField o "coordinate",
    radius := intField o "radius",
    effectiveStart := intField o "effectiveStart",
    effectiveEnd := intField o "effectiveEnd" }

/-- The line world: a notice is valid when it has a number, outdated once its end has
passed, and its region is the interval of its radius around its coordinate. -/
def env (now restrictionRadius : ℤ) (isRead : String → Bool)
    (stdSort : (Notam → Notam → Bool) → List Notam → List Notam) :
    Env Notam ℤ ℤ (ℤ × ℤ) ℤ ℤ :=
  { number := Notam.number,
    cancels := Notam.cancels,
    traffic := Notam.traffic,
    coordinate := Notam.coordinate,
    region := fun n => (n.coordinate, n.radius),
    effectiveStart := Notam.effectiveStart,
    effectiveEnd := Notam.effectiveEnd,
    isValid := fun n => n.number != "",
    isOutdated := fun now n => decide (n.effectiveEnd < now),
    parse := parse,
    distanceTo := fun a b => |a - b|,
    contains := fun g p => decide (|p - g.1| ≤ g.2),
    wpCoordinate := id,
    restrictionRadius := restrictionRadius,
    isRead := isRead,
    now := now,
    stdSort := stdSort }

/-- A JSON item describing a notice. -/
def item (number cancels traffic : String) (coordinate radius effectiveStart effectiveEnd : ℤ) :
    Json :=
  .obj [("number", .str number), ("cancels", .str cancels), ("traffic", .str traffic),
        ("coordinate", .num coordinate), ("radius", .num radius),
        ("effectiveStart", .num effectiveStart), ("effectiveEnd", .num effectiveEnd)]

/-- A JSON document with the given items array. -/
def doc (items : List Json) : Json := .obj [("items", .arr items)]

/-- The world used in the examples: time 100, restriction radius 50, nothing read. -/
def world : Env Notam ℤ ℤ (ℤ × ℤ) ℤ ℤ := env 100 50 (fun _ => false) stableSort

/-- The notice "A0123/24": VFR traffic, in force from 0 to 200, radius 10 around 3. -/
def a0123 : Notam := ⟨"A0123/24", "", "IV", 3, 10, 0, 200⟩

/-- The JSON item of `a0123`. -/
def a0123Item : Json := item "A0123/24" "" "IV" 3 10 0 200

/-- A document that repeats `a0123Item`. -/
def repeatedDoc : Json := doc [a0123Item, a0123Item]

/-- The notice "A0001/24": VFR traffic, in force from 0 to 300, radius 20 around 5. -/
def a0001 : Notam := ⟨"A0001/24", "", "V", 5, 20, 0, 300⟩

/-- The JSON item of `a0001`. -/
def a0001Item : Json := item "A0001/24" "" "V" 5 20 0 300

/-- The JSON item of the notice "A0002/24", which cancels "A0001/24". -/
def cancelItem : Json := item "A0002/24" "A0001/24" "V" 5 20 0 300

/-- A batch holding "A0001/24" and the notice that cancels it. -/
def cancelDoc : Json := doc [a0001Item, cancelItem]

/-- The notice "A0005/24": in force from 150 to 160. -/
def a0005 : Notam := ⟨"A0005/24", "", "V", 2, 10, 150, 160⟩

/-- The notice "A0007/24": in force from 0 to 120. -/
def a0007 : Notam := ⟨"A0007/24", "", "V", 6, 10, 0, 120⟩

/-- The notice "A0404/24": too far from the waypoints of the examples. -/
def a0404 : Notam := ⟨"A0404/24", "", "V", 90, 200, 0, 300⟩

/-- The notices "A0008/24" and "A0009/24" differ in their number only. -/
def twinA : Notam := ⟨"A0008/24", "", "V", 0, 10, 0, 200⟩

/-- See `twinA`. -/
def twinB : Notam := ⟨"A0009/24", "", "V", 0, 10, 0, 200⟩

/-- A world in which "A0001/24" has been read. -/
def readWorld : Env Notam ℤ ℤ (ℤ × ℤ) ℤ ℤ :=
  env 100 50 (fun s => s == "A0001/24") stableSort

/-- A world whose `std::sort` is the one of GNU libstdc++. -/
def gnuWorld : Env Notam ℤ ℤ (ℤ × ℤ) ℤ ℤ := env 100 50 (fun _ => false) Gnu.sort

/-- The notices "B0001/24" to "B0017/24" differ in their number only. -/
def b01 : Notam := ⟨"B0001/24", "", "V", 0, 10, 0, 200⟩

/-- See `b01`. -/
def b02 : Notam := ⟨"B0002/24", "", "V", 0, 10, 0, 200⟩

/-- See `b01`. -/
def b03 : Notam := ⟨"B0003/24", "", "V", 0, 10, 0, 200⟩

/-- See `b01`. -/
def b04 : Notam := ⟨"B0004/24", "", "V", 0, 10, 0, 200⟩

/-- See `b01`. -/
def b05 : Notam := ⟨"B0005/24", "", "V", 0, 10, 0, 200⟩

/-- See `b01`. -/
def b06 : Notam := ⟨"B0006/24", "", "V", 0, 10, 0, 200⟩

/-- See `b01`. -/
def b07 : Notam := ⟨"B0007/24", "", "V", 0, 10, 0, 200⟩

/-- See `b01`. -/
def b08 : Notam := ⟨"B0008/24", "", "V", 0, 10, 0, 200⟩

/-- See `b01`. -/
def b09 : Notam := ⟨"B0009/24", "", "V", 0, 10, 0, 200⟩

/-- See `b01`. -/
def b10 : Notam := ⟨"B0010/24", "", "V", 0, 10, 0, 200⟩

/-- See `b01`. -/
def b11 : Notam := ⟨"B0011/24", "", "V", 0, 10, 0, 200⟩

/-- See `b01`. -/
def b12 : Notam := ⟨"B0012/24", "", "V", 0, 10, 0, 200⟩

/-- See `b01`. -/
def b13 : Notam := ⟨"B0013/24", "", "V", 0, 10, 0, 200⟩

/-- See `b01`. -/
def b14 : Notam := ⟨"B0014/24", "", "V", 0, 10, 0, 200⟩

/-- See `b01`. -/
def b15 : Notam := ⟨"B0015/24", "", "V", 0, 10, 0, 200⟩

/-- See `b01`. -/
def b16 : Notam := ⟨"B0016/24", "", "V", 0, 10, 0, 200⟩

/-- See `b01`. -/
def b17 : Notam := ⟨"B0017/24", "", "V", 0, 10, 0, 200⟩

/-- A list of seventeen notices that differ in their number only. -/
def seventeenList : NotamList Notam ℤ ℤ ℤ :=
  ⟨[b01, b02, b03, b04, b05, b06, b07, b08, b09, b10, b11, b12, b13, b14, b15, b16, b17],
    ⟨0, 100⟩, 90⟩

/-- A list of five notices fetched for `fetchRegion` at time 90. -/
def fiveList : NotamList Notam ℤ ℤ ℤ :=
  ⟨[a0001, a0123, a0404, a0005, a0007], ⟨0, 100⟩, 90⟩

/-- A list of the two twins. -/
def twinList : NotamList Notam ℤ ℤ ℤ := ⟨[twinA, twinB], ⟨0, 100⟩, 90⟩

/-- A list fetched for the region of radius 1 around 0. -/
def smallList : NotamList Notam ℤ ℤ ℤ := ⟨[], ⟨0, 1⟩, 90⟩

/-- The region the examples fetch: radius 100 around 0. -/
def fetchRegion : QGeoCircle ℤ ℤ := ⟨0, 100⟩

/-- A notice that shares the number of `a0001` and lies elsewhere. -/
def a0001Moved : Notam := ⟨"A0001/24", "", "V", 7, 20, 0, 300⟩

/-- A list in which two different notices bear the number "A0001/24". -/
def sharedNumberList : NotamList Notam ℤ ℤ ℤ := ⟨[a0001, a0001Moved], ⟨0, 100⟩, 90⟩

/-- A list that holds `a0001` twice. -/
def twiceList : NotamList Notam ℤ ℤ ℤ := ⟨[a0001, a0001], ⟨0, 100⟩, 90⟩

/-- A batch in which an outdated "A0123/24" precedes the admissible one. -/
def shadowDoc : Json := doc [item "A0123/24" "" "IV" 3 10 0 50, a0123Item, a0001Item, a0123Item]

end Line

/-! ## A world of bytes

Notices, times, coordinates and lengths are single bytes. The serialization properties are
tried out in this world. -/

namespace Bytes

/-- One byte, written as itself. -/
def byteCodec : Codec Byte :=
  { encode := fun b => [b],
    decode := fun bs => match bs with
      | b :: rest => some (b, rest)
      | [] => none,
    failed := fun _ target => (target, []) }

/-- A circle, written as centre and radius. -/
def circleCodec : Codec (QGeoCircle Byte Byte) :=
  { encode := fun c => [c.center, c.radius],
    decode := fun bs => match bs with
      | a :: b :: rest => some (⟨a, b⟩, rest)
      | _ => none,
    failed := fun _ target => (target, []) }

/-- The bytes of a list: every element after a byte 1, and a byte 0 at the end. -/
def encodeList : List Byte → List Byte
  | [] => [0]
  | b :: l => 1 :: b :: encodeList l

/-- Read a list written by `encodeList`. -/
def decodeList : List Byte → Option (List Byte × List Byte)
  | 0 :: rest => some ([], rest)
  | 1 :: b :: rest =>
    match decodeList rest with
    | some (l, rest2) => some (b :: l, rest2)
    | none => none
  | _ => none

/-- A list of bytes; a failed read leaves the target empty. -/
def listCodec : Codec (List Byte) :=
  { encode := encodeList,
    decode := decodeList,
    failed := fun _ _ => ([], []) }

/-- A list with two entries. -/
def sample : NotamList Byte Byte Byte Byte := ⟨[5, 9], ⟨3, 100⟩, 42⟩

/-- A default-constructed list. -/
def fresh : NotamList Byte Byte Byte Byte := ⟨[], ⟨0, 0⟩, 0⟩

/-- An empty stream with status `Ok`. -/
def emptyStream : QDataStream := ⟨[], true⟩

/-- A stream that holds the sequence [5] and then ends. -/
def truncated : QDataStream := ⟨[1, 5, 0], true⟩

end Bytes

/-! # Properties -/

/-! ## The constructor -/

section Constructor

variable {N T P G W D : Type}

/-- The loop body of the constructor in closed form: a valid cancellation only touches the
collector, an admissible notice with a fresh number is appended, everything else is skipped. -/
theorem ctorStep_eq (env : Env N T P G W D) (st : CtorState N) (item : Json) :
    ctorStep env st item =
      if env.isValid (itemNotam env item) = true ∧ env.cancels (itemNotam env item) ≠ "" then
        { st with cancelled := st.cancelled.map (insert (env.cancels (itemNotam env item))) }
      else if Admissible env (itemNotam env item) ∧
          env.number (itemNotam env item) ∉ st.numbersSeen then
        { st with m_notams := st.m_notams ++ [itemNotam env item],
                  numbersSeen := insert (env.number (itemNotam env item)) st.numbersSeen }
      else st := by
  obtain ⟨ns, seen, c⟩ := st
  unfold ctorStep Admissible itemNotam
  by_cases hv : env.isValid (env.parse item.toObject) = true
  · by_cases hc : env.cancels (env.parse item.toObject) = ""
    · by_cases ho : env.isOutdated env.now (env.parse item.toObject) = true
      · simp [hv, hc, ho]
      · by_cases ht : qContains (env.traffic (env.parse item.toObject)) "V" = true
        · by_cases hs : env.number (env.parse item.toObject) ∈ seen
          · simp [hv, hc, ho, ht, hs]
          · simp [hv, hc, ho, ht, hs]
        · simp [hv, hc, ho, ht]
    · cases c <;> simp [hv, hc]
  · simp [hv]

theorem ctorInv_step (env : Env N T P G W D) (st : CtorState N) (item : Json)
    (h : CtorInv env st) : CtorInv env (ctorStep env st item) := by
  obtain ⟨hadm, hseen, hnd⟩ := h
  rw [ctorStep_eq]
  split_ifs with h1 h2
  · exact ⟨hadm, hseen, hnd⟩
  · refine ⟨?_, ?_, ?_⟩
    · intro n hn
      rcases List.mem_append.1 hn with hn | hn
      · exact hadm n hn
      · rw [List.mem_singleton.1 hn]
        exact h2.1
    · intro s
      simp only [Finset.mem_insert, List.map_append, List.map_cons, List.map_nil,
        List.mem_append, List.mem_singleton, hseen s]
      tauto
    · simp only [List.map_append, List.map_cons, List.map_nil]
      refine List.Nodup.append hnd (List.nodup_singleton _) ?_
      intro s hs hs2
      rw [List.mem_singleton.1 hs2] at hs
      exact h2.2 ((hseen _).2 hs)
  · exact ⟨hadm, hseen, hnd⟩

theorem ctorInv_foldl (env : Env N T P G W D) (items : List Json) :
    ∀ st : CtorState N, CtorInv env st → CtorInv env (items.foldl (ctorStep env) st) := by
  induction items with
  | nil => intro st h; exact h
  | cons item rest ih => intro st h; exact ih _ (ctorInv_step env st item h)

theorem ctorInv_loop (env : Env N T P G W D) (jsonDoc : Json) (c : Option (Finset String)) :
    CtorInv env (ctorLoop env jsonDoc c) := by
  refine ctorInv_foldl env _ _ ⟨?_, ?_, ?_⟩ <;> simp

theorem ctorStep_cancelled (env : Env N T P G W D) (st : CtorState N) (item : Json) :
    (ctorStep env st item).cancelled =
      if env.isValid (itemNotam env item) = true ∧ env.cancels (itemNotam env item) ≠ "" then
        st.cancelled.map (insert (env.cancels (itemNotam env item)))
      else st.cancelled := by
  rw [ctorStep_eq]
  split_ifs <;> rfl

theorem ctor_cancelled_foldl (env : Env N T P G W D) (items : List Json) :
    ∀ (st : CtorState N) (c : Finset String), st.cancelled = some c →
      (items.foldl (ctorStep env) st).cancelled = some (c ∪ harvested env items) := by
  induction items with
  | nil => intro st c h; simp [harvested, h]
  | cons item rest ih =>
    intro st c h
    rw [List.foldl_cons]
    by_cases hk : env.isValid (itemNotam env item) = true ∧ env.cancels (itemNotam env item) ≠ ""
    · rw [ih (ctorStep env st item) (insert (env.cancels (itemNotam env item)) c)
        (by rw [ctorStep_cancelled, if_pos hk, h]; rfl)]
      congr 1
      ext s
      simp [harvested, hk.1, hk.2]
    · rw [ih (ctorStep env st item) c (by rw [ctorStep_cancelled, if_neg hk, h])]
      congr 1
      ext s
      have hk2 : ¬ (env.isValid (itemNotam env item) = true ∧
          ¬ env.cancels (itemNotam env item) = "") := hk
      simp [harvested, hk2]

/-- C1. Every entry of a list built by the constructor is valid, cancels nothing, is not
outdated and has a traffic string containing "V", whatever the document, the region and
the collector. -/
theorem constructed_entries_admissible (env : Env N T P G W D) (jsonDoc : Json)
    (region : QGeoCircle P D) (collector : Option (Finset String)) (n : N)
    (hn : n ∈ (NotamList.construct env jsonDoc region collector).1.m_notams) :
    env.isValid n = true ∧ env.cancels n = "" ∧ env.isOutdated env.now n = false ∧
      qContains (env.traffic n) "V" = true :=
  (ctorInv_loop env jsonDoc collector).1 n hn

/-- Witness of C1: the repeated document yields the entry "A0123/24", which is admissible. -/
theorem constructed_entries_admissible_witness :
    Line.a0123 ∈ (NotamList.construct Line.world Line.repeatedDoc Line.fetchRegion none).1.m_notams ∧
    (Line.world.isValid Line.a0123 = true ∧ Line.world.cancels Line.a0123 = "" ∧
      Line.world.isOutdated Line.world.now Line.a0123 = false ∧
      qContains (Line.world.traffic Line.a0123) "V" = true) :=
  ⟨by decide, constructed_entries_admissible Line.world Line.repeatedDoc Line.fetchRegion none
    Line.a0123 (by decide)⟩

/-- C2. The numbers of the entries of a constructed list are pairwise distinct; and a
document whose items array is one admissible item twice yields exactly that one entry. -/
theorem constructed_numbers_nodup (env : Env N T P G W D) (jsonDoc : Json)
    (region : QGeoCircle P D) (collector : Option (Finset String)) :
    ((NotamList.construct env jsonDoc region collector).1.m_notams.map env.number).Nodup ∧
    ∀ item : Json, docItems jsonDoc = [item, item] → Admissible env (itemNotam env item) →
      (NotamList.construct env jsonDoc region collector).1.m_notams = [itemNotam env item] := by
  refine ⟨(ctorInv_loop env jsonDoc collector).2.2, ?_⟩
  intro item hitems hadm
  have hc : ¬ (env.isValid (itemNotam env item) = true ∧ env.cancels (itemNotam env item) ≠ "") :=
    fun h => h.2 hadm.2.1
  simp [NotamList.construct, ctorLoop, hitems, ctorStep_eq, hc, hadm]

/-- Witness of C2: two identical admissible items numbered "A0123/24" give one entry. -/
theorem constructed_numbers_nodup_witness :
    docItems Line.repeatedDoc = [Line.a0123Item, Line.a0123Item] ∧
    Admissible Line.world (itemNotam Line.world Line.a0123Item) ∧
    Line.world.number (itemNotam Line.world Line.a0123Item) = "A0123/24" ∧
    (NotamList.construct Line.world Line.repeatedDoc Line.fetchRegion none).1.m_notams =
      [itemNotam Line.world Line.a0123Item] :=
  ⟨rfl, by decide, by decide,
    (constructed_numbers_nodup Line.world Line.repeatedDoc Line.fetchRegion none).2
      Line.a0123Item rfl (by decide)⟩

/-- C3. Started with a collector holding `C0`, the constructor leaves in it exactly `C0`
together with `cancels()` of every item that is valid and has a non-empty `cancels()`. -/
theorem constructed_collector (env : Env N T P G W D) (jsonDoc : Json)
    (region : QGeoCircle P D) (C0 : Finset String) :
    (NotamList.construct env jsonDoc region (some C0)).2 =
      some (C0 ∪ harvested env (docItems jsonDoc)) :=
  ctor_cancelled_foldl env (docItems jsonDoc) _ C0 rfl

end Constructor

/-! ## Sorting -/

section Sorting

variable {α : Type}

theorem StrictWeakOrdering.asymm {lt : α → α → Bool} (h : StrictWeakOrdering lt) {a b : α}
    (hab : lt a b = true) : lt b a = false := by
  cases hba : lt b a
  · rfl
  · have := h.2.1 a b a hab hba
    rw [h.1 a] at this
    exact absurd this (by simp)

theorem StrictWeakOrdering.not_lt_trans {lt : α → α → Bool} (h : StrictWeakOrdering lt)
    {x b a : α} (hxb : lt x b = false) (hba : lt b a = false) : lt x a = false := by
  cases hxa : lt x a
  · rfl
  · exfalso
    cases hbx : lt b x
    · cases hab : lt a b
      · have := (h.2.2 x b a hxb hbx hba hab).1
        rw [hxa] at this
        exact absurd this (by simp)
      · have := h.2.1 x a b hxa hab
        rw [hxb] at this
        exact absurd this (by simp)
    · have := h.2.1 b x a hbx hxa
      rw [hba] at this
      exact absurd this (by simp)

theorem insertSorted_perm (lt : α → α → Bool) (a : α) (l : List α) :
    (insertSorted lt a l).Perm (a :: l) := by
  induction l with
  | nil => exact List.Perm.refl _
  | cons b l ih =>
    unfold insertSorted
    split_ifs
    · exact (List.Perm.cons b ih).trans (List.Perm.swap a b l)
    · exact List.Perm.refl _

theorem stableSort_perm (lt : α → α → Bool) (l : List α) : (stableSort lt l).Perm l := by
  induction l with
  | nil => exact List.Perm.refl _
  | cons a l ih =>
    unfold stableSort
    exact (insertSorted_perm lt a _).trans (List.Perm.cons a ih)

theorem insertSorted_sorted {lt : α → α → Bool} (h : StrictWeakOrdering lt) (a : α)
    (l : List α) (hl : l.Pairwise (fun x y => lt y x = false)) :
    (insertSorted lt a l).Pairwise (fun x y => lt y x = false) := by
  induction l with
  | nil => simp [insertSorted]
  | cons b l ih =>
    rw [List.pairwise_cons] at hl
    unfold insertSorted
    split_ifs with hba
    · rw [List.pairwise_cons]
      refine ⟨?_, ih hl.2⟩
      intro x hx
      rcases (List.mem_cons.1 ((insertSorted_perm lt a l).mem_iff.1 hx)) with hx | hx
      · rw [hx]
        exact h.asymm hba
      · exact hl.1 x hx
    · rw [List.pairwise_cons]
      refine ⟨?_, List.pairwise_cons.2 hl⟩
      intro x hx
      have hba2 : lt b a = false := by simpa using hba
      rcases List.mem_cons.1 hx with hx | hx
      · rw [hx]
        exact hba2
      · exact h.not_lt_trans (hl.1 x hx) hba2

theorem stableSort_sorted {lt : α → α → Bool} (h : StrictWeakOrdering lt) (l : List α) :
    (stableSort lt l).Pairwise (fun x y => lt y x = false) := by
  induction l with
  | nil => simp [stableSort]
  | cons a l ih =>
    unfold stableSort
    exact insertSorted_sorted h a _ ih

/-- Insertion sort fulfils the contract of `std::sort`. -/
theorem stableSort_contract : StdSortContract (stableSort : (α → α → Bool) → List α → List α) :=
  fun lt xs h => ⟨stableSort_perm lt xs, stableSort_sorted h xs⟩

end Sorting

/-! ## The comparator of `restricted` -/

section Comparator

variable {N T P G W D : Type} [LinearOrder T]

theorem qMax_eq_max (a b : T) : qMax a b = max a b := by
  unfold qMax
  split_ifs with h
  · exact (max_eq_right h.le).symm
  · exact (max_eq_left (not_lt.1 h)).symm

theorem qMin_eq_min (a b : T) : qMin a b = min a b := by
  unfold qMin
  split_ifs with h
  · exact (min_eq_left h.le).symm
  · exact (min_eq_right (not_lt.1 h)).symm

/-- The comparator is the strict lexicographic order of the three keys. -/
theorem sortLess_iff (env : Env N T P G W D) (a b : N) :
    sortLess env a b = true ↔ sortKey env a < sortKey env b := by
  unfold sortLess sortKey
  simp only [qMax_eq_max, Prod.Lex.lt_iff, ofLex_toLex]
  cases ha : env.isRead (env.number a) <;> cases hb : env.isRead (env.number b) <;>
    by_cases hk : max (env.effectiveStart a) env.now = max (env.effectiveStart b) env.now <;>
    simp [hk]

theorem sortLess_eq_false_iff (env : Env N T P G W D) (a b : N) :
    sortLess env a b = false ↔ sortKey env b ≤ sortKey env a := by
  rw [← not_lt, ← sortLess_iff]
  simp

/-- The comparator is a strict weak ordering, as `std::sort` requires. -/
theorem sortLess_strictWeakOrdering (env : Env N T P G W D) :
    StrictWeakOrdering (sortLess env) := by
  refine ⟨?_, ?_, ?_⟩
  · intro a
    rw [sortLess_eq_false_iff]
  · intro a b c hab hbc
    rw [sortLess_iff] at *
    exact lt_trans hab hbc
  · intro a b c hab hba hbc hcb
    simp only [sortLess_eq_false_iff] at *
    exact ⟨le_trans hbc hab, le_trans hba hcb⟩

end Comparator

/-! ## The filter loop of `cleaned` and `restricted` -/

section KeepLoop

variable {N : Type} [DecidableEq N]

theorem keep_foldl_mem (p : N → Bool) (xs : List N) :
    ∀ (acc : List N) (n : N),
      n ∈ xs.foldl (keepStep p) acc ↔ n ∈ acc ∨ (n ∈ xs ∧ p n = true) := by
  induction xs with
  | nil => intro acc n; simp
  | cons x rest ih =>
    intro acc n
    rw [List.foldl_cons, ih]
    unfold keepStep
    by_cases hx : p x = true ∧ x ∉ acc
    · rw [if_pos hx]
      simp only [List.mem_append, List.mem_cons, List.not_mem_nil, or_false]
      constructor
      · rintro ((h | h) | h)
        · exact Or.inl h
        · exact Or.inr ⟨Or.inl h, h ▸ hx.1⟩
        · exact Or.inr ⟨Or.inr h.1, h.2⟩
      · rintro (h | ⟨h | h, hp⟩)
        · exact Or.inl (Or.inl h)
        · exact Or.inl (Or.inr h)
        · exact Or.inr ⟨h, hp⟩
    · rw [if_neg hx]
      simp only [List.mem_cons]
      constructor
      · rintro (h | h)
        · exact Or.inl h
        · exact Or.inr ⟨Or.inr h.1, h.2⟩
      · rintro (h | ⟨h | h, hp⟩)
        · exact Or.inl h
        · by_cases hacc : x ∈ acc
          · exact Or.inl (h ▸ hacc)
          · exact absurd ⟨h ▸ hp, hacc⟩ hx
        · exact Or.inr ⟨h, hp⟩

theorem keep_foldl_nodup (p : N → Bool) (xs : List N) :
    ∀ acc : List N, acc.Nodup → (xs.foldl (keepStep p) acc).Nodup := by
  induction xs with
  | nil => intro acc h; exact h
  | cons x rest ih =>
    intro acc h
    rw [List.foldl_cons]
    apply ih
    unfold keepStep
    split_ifs with hx
    · refine List.Nodup.append h (List.nodup_singleton _) ?_
      intro a ha ha2
      rw [List.mem_singleton.1 ha2] at ha
      exact hx.2 ha
    · exact h

theorem keep_foldl_sublist (p : N → Bool) (xs : List N) :
    ∀ acc : List N, ∃ r, xs.foldl (keepStep p) acc = acc ++ r ∧ r.Sublist xs := by
  induction xs with
  | nil => intro acc; exact ⟨[], by simp, List.Sublist.refl _⟩
  | cons x rest ih =>
    intro acc
    rw [List.foldl_cons]
    obtain ⟨r, hr, hsub⟩ := ih (keepStep p acc x)
    unfold keepStep at hr ⊢
    split_ifs at hr ⊢ with hx
    · exact ⟨x :: r, by rw [hr]; simp, hsub.cons₂ x⟩
    · exact ⟨r, hr, hsub.cons x⟩

end KeepLoop

/-! ## cleaned -/

section Cleaned

variable {N T P G W D : Type} [DecidableEq N]

theorem cleanedStep_eq (env : Env N T P G W D) (S : Finset String) :
    cleanedStep env S = keepStep (cleanedKeeps env S) := by
  funext acc n
  unfold cleanedStep keepStep cleanedKeeps
  by_cases hv : env.isValid n = true <;> by_cases ho : env.isOutdated env.now n = true <;>
    by_cases hs : env.number n ∈ S <;> by_cases ha : n ∈ acc <;> simp [hv, ho, hs, ha]

/-- C4. The entries of `l.cleaned(S)` are a subsequence of the entries of `l`, and a Notam
is among them exactly when it is in `l`, valid, not outdated and its number is not in `S`;
`traffic()` plays no part. -/
theorem cleaned_entries (env : Env N T P G W D) (l : NotamList N T P D) (S : Finset String) :
    (l.cleaned env S).m_notams.Sublist l.m_notams ∧
    ∀ n : N, n ∈ (l.cleaned env S).m_notams ↔
      (n ∈ l.m_notams ∧ env.isValid n = true ∧ env.isOutdated env.now n = false ∧
        env.number n ∉ S) := by
  constructor
  · obtain ⟨r, hr, hsub⟩ := keep_foldl_sublist (cleanedKeeps env S) l.m_notams []
    simp only [NotamList.cleaned, cleanedStep_eq, hr, List.nil_append]
    exact hsub
  · intro n
    simp only [NotamList.cleaned, cleanedStep_eq, keep_foldl_mem, cleanedKeeps,
      List.not_mem_nil, false_or, Bool.and_eq_true, Bool.not_eq_true', decide_eq_true_eq]
    tauto

/-- C5. Let `L` be the list the constructor builds from a document and `C` the set it
harvests into an empty collector. Then no entry of `L.cleaned(C)` bears the number that a
valid cancellation item of the document cancels. -/
theorem cleaned_drops_harvested (env : Env N T P G W D) (jsonDoc : Json)
    (region : QGeoCircle P D) (C : Finset String)
    (hC : (NotamList.construct env jsonDoc region (some ∅)).2 = some C)
    (item : Json) (hitem : item ∈ docItems jsonDoc)
    (hv : env.isValid (itemNotam env item) = true)
    (hc : env.cancels (itemNotam env item) ≠ "") :
    env.cancels (itemNotam env item) ∉
      ((NotamList.construct env jsonDoc region (some ∅)).1.cleaned env C).m_notams.map
        env.number := by
  have hh : (NotamList.construct env jsonDoc region (some ∅)).2 =
      some (∅ ∪ harvested env (docItems jsonDoc)) :=
    ctor_cancelled_foldl env (docItems jsonDoc) _ ∅ rfl
  rw [hh] at hC
  have hCeq : C = harvested env (docItems jsonDoc) := by
    rw [← Option.some.inj hC, Finset.empty_union]
  have hmem : env.cancels (itemNotam env item) ∈ C := by
    rw [hCeq]
    unfold harvested
    rw [List.mem_toFinset, List.mem_map]
    refine ⟨itemNotam env item, ?_, rfl⟩
    rw [List.mem_filter]
    refine ⟨List.mem_map.2 ⟨item, hitem, rfl⟩, ?_⟩
    simp [hv, hc]
  intro hin
  obtain ⟨n, hn, hnum⟩ := List.mem_map.1 hin
  have hkeep : n ∈ (NotamList.construct env jsonDoc region (some ∅)).1.m_notams.foldl
      (keepStep (cleanedKeeps env C)) [] := by
    simpa only [NotamList.cleaned, cleanedStep_eq] using hn
  rw [keep_foldl_mem] at hkeep
  rcases hkeep with h | ⟨_, h⟩
  · exact absurd h (List.not_mem_nil n)
  · simp only [cleanedKeeps, Bool.and_eq_true, decide_eq_true_eq] at h
    exact h.2 (hnum ▸ hmem)

/-- Witness of C5: a batch with the notice "A0001/24" and a notice cancelling it. The
constructed list holds "A0001/24", the harvested set is {"A0001/24"}, and after cleaning
with that set no entry is numbered "A0001/24". -/
theorem cleaned_drops_harvested_witness :
    Line.a0001 ∈ (NotamList.construct Line.world Line.cancelDoc Line.fetchRegion
      (some ∅)).1.m_notams ∧
    (NotamList.construct Line.world Line.cancelDoc Line.fetchRegion (some ∅)).2 =
      some {"A0001/24"} ∧
    Line.world.cancels (itemNotam Line.world Line.cancelItem) = "A0001/24" ∧
    Line.world.cancels (itemNotam Line.world Line.cancelItem) ∉
      ((NotamList.construct Line.world Line.cancelDoc Line.fetchRegion (some ∅)).1.cleaned
        Line.world {"A0001/24"}).m_notams.map Line.world.number :=
  ⟨by decide, by decide, by decide,
    cleaned_drops_harvested Line.world Line.cancelDoc Line.fetchRegion {"A0001/24"}
      (by decide) Line.cancelItem (List.Mem.tail _ (List.Mem.head _)) (by decide) (by decide)⟩

end Cleaned


/-! ## restricted -/

section Restricted

variable {N T P G W D : Type} [DecidableEq N] [LinearOrder T] [LinearOrderedAddCommGroup D]

omit [LinearOrder T] in
theorem restrictedStep_eq (env : Env N T P G W D) (w : W) :
    restrictedStep env w = keepStep (restrictedKeeps env w) := by
  funext acc n
  unfold restrictedStep keepStep restrictedKeeps
  by_cases hv : env.isValid n = true <;> by_cases ho : env.isOutdated env.now n = true <;>
    by_cases hd : env.distanceTo (env.coordinate n) (env.wpCoordinate w) ≤ env.restrictionRadius <;>
    by_cases ha : n ∈ acc <;>
    by_cases hr : env.contains (env.region n) (env.wpCoordinate w) = true <;>
    simp [hv, ho, hd, ha, hr, not_le.1, not_lt.2]

omit [LinearOrder T] in
theorem restrictedKept_mem (env : Env N T P G W D) (l : NotamList N T P D) (w : W) (n : N) :
    n ∈ restrictedKept env l w ↔
      (n ∈ l.m_notams ∧ env.isValid n = true ∧ env.isOutdated env.now n = false ∧
        env.distanceTo (env.coordinate n) (env.wpCoordinate w) ≤ env.restrictionRadius ∧
        env.contains (env.region n) (env.wpCoordinate w) = true) := by
  simp only [restrictedKept, restrictedStep_eq, keep_foldl_mem, restrictedKeeps,
    List.not_mem_nil, false_or, Bool.and_eq_true, Bool.not_eq_true', decide_eq_true_eq]
  tauto

theorem restricted_perm (env : Env N T P G W D) (hsort : StdSortContract env.stdSort)
    (l : NotamList N T P D) (w : W) :
    (l.restricted env w).m_notams.Perm (restrictedKept env l w) :=
  (hsort (sortLess env) (restrictedKept env l w) (sortLess_strictWeakOrdering env)).1

theorem restricted_pairwise_key (env : Env N T P G W D) (hsort : StdSortContract env.stdSort)
    (l : NotamList N T P D) (w : W) :
    (l.restricted env w).m_notams.Pairwise (fun a b => sortKey env a ≤ sortKey env b) := by
  refine List.Pairwise.imp ?_
    (hsort (sortLess env) (restrictedKept env l w) (sortLess_strictWeakOrdering env)).2
  intro a b h
  exact (sortLess_eq_false_iff env b a).1 h

omit [DecidableEq N] [LinearOrderedAddCommGroup D] in
theorem keyLE_of_sortKey_le (env : Env N T P G W D) (a b : N)
    (hr : env.isRead (env.number a) = env.isRead (env.number b))
    (h : sortKey env a ≤ sortKey env b) : KeyLE env a b := by
  unfold sortKey at h
  rw [Prod.Lex.le_iff] at h
  simp only [ofLex_toLex] at h
  rcases h with h | ⟨_, h⟩
  · rw [hr] at h
    exact absurd h (lt_irrefl _)
  · rw [Prod.Lex.le_iff] at h
    exact h

omit [DecidableEq N] [LinearOrderedAddCommGroup D] in
theorem unread_first_of_sortKey_le (env : Env N T P G W D) (a b : N)
    (h : sortKey env a ≤ sortKey env b) :
    ¬ (env.isRead (env.number a) = true ∧ env.isRead (env.number b) = false) := by
  rintro ⟨ha, hb⟩
  unfold sortKey at h
  rw [Prod.Lex.le_iff] at h
  simp only [ofLex_toLex, ha, hb] at h
  rcases h with h | ⟨h, _⟩
  · exact absurd h (by decide)
  · exact absurd h (by decide)

/-- C6. With `std::sort` keeping its contract, a Notam is an entry of `l.restricted(w)`
exactly when it is an entry of `l`, valid, not outdated, at most `restrictionRadius` away
from `w` and its region contains `w`; and the entries are a rearrangement of what the filter
loop kept, which is a subsequence of `l` without repetitions selected by the same
conditions. -/
theorem restricted_entries (env : Env N T P G W D) (hsort : StdSortContract env.stdSort)
    (l : NotamList N T P D) (w : W) :
    (∀ n : N, n ∈ (l.restricted env w).m_notams ↔
      (n ∈ l.m_notams ∧ env.isValid n = true ∧ env.isOutdated env.now n = false ∧
        env.distanceTo (env.coordinate n) (env.wpCoordinate w) ≤ env.restrictionRadius ∧
        env.contains (env.region n) (env.wpCoordinate w) = true)) ∧
    (l.restricted env w).m_notams.Perm (restrictedKept env l w) ∧
    (restrictedKept env l w).Sublist l.m_notams ∧
    (restrictedKept env l w).Nodup ∧
    (∀ n : N, n ∈ restrictedKept env l w ↔
      (n ∈ l.m_notams ∧ env.isValid n = true ∧ env.isOutdated env.now n = false ∧
        env.distanceTo (env.coordinate n) (env.wpCoordinate w) ≤ env.restrictionRadius ∧
        env.contains (env.region n) (env.wpCoordinate w) = true)) := by
  refine ⟨fun n => ?_, restricted_perm env hsort l w, ?_, ?_, restrictedKept_mem env l w⟩
  · rw [(restricted_perm env hsort l w).mem_iff]
    exact restrictedKept_mem env l w n
  · obtain ⟨r, hr, hsub⟩ := keep_foldl_sublist (restrictedKeeps env w) l.m_notams []
    simp only [restrictedKept, restrictedStep_eq, hr, List.nil_append]
    exact hsub
  · simp only [restrictedKept, restrictedStep_eq]
    exact keep_foldl_nodup _ _ [] List.nodup_nil

/-- Witness of C6: of five notices, one is too far from waypoint 4 and is dropped; the
other four are kept. -/
theorem restricted_entries_witness :
    StdSortContract Line.readWorld.stdSort ∧
    restrictedKept Line.readWorld Line.fiveList 4 =
      [Line.a0001, Line.a0123, Line.a0005, Line.a0007] ∧
    (Line.fiveList.restricted Line.readWorld 4).m_notams.Perm
      (restrictedKept Line.readWorld Line.fiveList 4) :=
  ⟨stableSort_contract, by decide,
    (restricted_entries Line.readWorld stableSort_contract Line.fiveList 4).2.1⟩

/-- C7. With `std::sort` keeping its contract, no read entry of `l.restricted(w)` stands
before an unread one, and among the unread entries as among the read ones every entry is
at most any later one (in particular the next one) in the lexicographic order of
`max(effectiveStart, now)` and `effectiveEnd`. -/
theorem restricted_sorted (env : Env N T P G W D) (hsort : StdSortContract env.stdSort)
    (l : NotamList N T P D) (w : W) :
    (l.restricted env w).m_notams.Pairwise
      (fun a b => ¬ (env.isRead (env.number a) = true ∧ env.isRead (env.number b) = false)) ∧
    ((l.restricted env w).m_notams.filter (fun n => !env.isRead (env.number n))).Pairwise
      (KeyLE env) ∧
    ((l.restricted env w).m_notams.filter (fun n => env.isRead (env.number n))).Pairwise
      (KeyLE env) := by
  have hk := restricted_pairwise_key env hsort l w
  refine ⟨hk.imp (fun {a b} h => unread_first_of_sortKey_le env a b h), ?_, ?_⟩
  · refine List.Pairwise.imp_of_mem ?_ (hk.filter _)
    intro a b ha hb h
    have ha2 := (List.mem_filter.1 ha).2
    have hb2 := (List.mem_filter.1 hb).2
    simp only [Bool.not_eq_true'] at ha2 hb2
    exact keyLE_of_sortKey_le env a b (ha2.trans hb2.symm) h
  · refine List.Pairwise.imp_of_mem ?_ (hk.filter _)
    intro a b ha hb h
    have ha2 := (List.mem_filter.1 ha).2
    have hb2 := (List.mem_filter.1 hb).2
    exact keyLE_of_sortKey_le env a b (ha2.trans hb2.symm) h

/-- Witness of C7: with "A0001/24" read and the clock at 100, the three unread notices
come first, ordered by clamped start and end, and the read one comes last. -/
theorem restricted_sorted_witness :
    StdSortContract Line.readWorld.stdSort ∧
    (Line.fiveList.restricted Line.readWorld 4).m_notams =
      [Line.a0007, Line.a0123, Line.a0005, Line.a0001] ∧
    ((Line.fiveList.restricted Line.readWorld 4).m_notams.filter
      (fun n => !Line.readWorld.isRead (Line.readWorld.number n))).Pairwise
      (KeyLE Line.readWorld) :=
  ⟨stableSort_contract, by decide,
    (restricted_sorted Line.readWorld stableSort_contract Line.fiveList 4).2.1⟩

/-- Counterexample to C8: seventeen notices that are equal under all three keys, sorted by
the `std::sort` of GNU libstdc++. "B0002/24" stands before "B0003/24" in the list, and
behind it in the result of `restricted`. The result is a rearrangement of the kept entries
in which no entry is followed by one that comes before it. -/
theorem restricted_not_stable :
    sameKeys Line.gnuWorld Line.b02 Line.b03 = true ∧
    [Line.b02, Line.b03].Sublist Line.seventeenList.m_notams ∧
    restrictedKept Line.gnuWorld Line.seventeenList 0 = Line.seventeenList.m_notams ∧
    (Line.seventeenList.restricted Line.gnuWorld 0).m_notams =
      [Line.b09, Line.b17, Line.b16, Line.b15, Line.b14, Line.b13, Line.b12, Line.b11,
        Line.b10, Line.b01, Line.b08, Line.b07, Line.b06, Line.b05, Line.b04, Line.b03,
        Line.b02] ∧
    ¬ [Line.b02, Line.b03].Sublist (Line.seventeenList.restricted Line.gnuWorld 0).m_notams ∧
    (Line.seventeenList.restricted Line.gnuWorld 0).m_notams.Pairwise
      (fun a b => sortLess Line.gnuWorld b a = false) := by
  refine ⟨by decide, by decide, by decide, by decide, by decide, by decide⟩

/-- C8, amended. With `std::sort` keeping its contract, the entries of `l.restricted(w)`
that agree with a notice `x` in all three keys are a rearrangement of the kept entries that
agree with `x` in all three keys; their relative order is not determined. -/
theorem restricted_equal_keys_perm (env : Env N T P G W D)
    (hsort : StdSortContract env.stdSort) (l : NotamList N T P D) (w : W) (x : N) :
    ((l.restricted env w).m_notams.filter (sameKeys env x)).Perm
      ((restrictedKept env l w).filter (sameKeys env x)) :=
  (restricted_perm env hsort l w).filter _

/-- Witness of C8, amended: the two twins are kept and returned, a rearrangement. -/
theorem restricted_equal_keys_perm_witness :
    StdSortContract Line.world.stdSort ∧
    (restrictedKept Line.world Line.twinList 0).filter
      (sameKeys Line.world Line.twinA) = [Line.twinA, Line.twinB] ∧
    ((Line.twinList.restricted Line.world 0).m_notams.filter
      (sameKeys Line.world Line.twinA)).Perm
      ((restrictedKept Line.world Line.twinList 0).filter
        (sameKeys Line.world Line.twinA)) :=
  ⟨stableSort_contract, by decide,
    restricted_equal_keys_perm Line.world stableSort_contract Line.twinList 0
      Line.twinA⟩

omit [DecidableEq N] [LinearOrder T] in
theorem restrictedRadius_eq (env : Env N T P G W D) (l : NotamList N T P D) (w : W) :
    restrictedRadius env l w =
      min env.restrictionRadius
        (max 0 (l.m_region.radius - env.distanceTo l.m_region.center (env.wpCoordinate w))) := by
  unfold restrictedRadius
  rw [qMin_eq_min, qMax_eq_max]

/-- C9. With a non-negative `restrictionRadius`, the region of `l.restricted(w)` is centred
on `w` and its radius is `min(restrictionRadius, max(0, r - d))`, where `r` is the radius of
the region of `l` and `d` the distance from its centre to `w`: the radius is at least 0, at
most `restrictionRadius`, at most `r - d` when `r - d > 0`, and 0 when `r - d <= 0`. -/
theorem restricted_region_radius (env : Env N T P G W D) (l : NotamList N T P D) (w : W)
    (hR : 0 ≤ env.restrictionRadius) :
    (l.restricted env w).m_region.radius =
      min env.restrictionRadius
        (max 0 (l.m_region.radius - env.distanceTo l.m_region.center (env.wpCoordinate w))) ∧
    0 ≤ (l.restricted env w).m_region.radius ∧
    (l.restricted env w).m_region.radius ≤ env.restrictionRadius ∧
    (0 < l.m_region.radius - env.distanceTo l.m_region.center (env.wpCoordinate w) →
      (l.restricted env w).m_region.radius ≤
        l.m_region.radius - env.distanceTo l.m_region.center (env.wpCoordinate w)) ∧
    (l.m_region.radius - env.distanceTo l.m_region.center (env.wpCoordinate w) ≤ 0 →
      (l.restricted env w).m_region.radius = 0) ∧
    (l.restricted env w).m_region.center = env.wpCoordinate w := by
  have hrad : (l.restricted env w).m_region.radius = restrictedRadius env l w := rfl
  rw [hrad, restrictedRadius_eq]
  refine ⟨rfl, le_min hR (le_max_left _ _), min_le_left _ _, ?_, ?_, rfl⟩
  · intro hpos
    exact (min_le_right _ _).trans (le_of_eq (max_eq_right hpos.le))
  · intro hneg
    rw [max_eq_left hneg]
    exact min_eq_right hR

/-- Witness of C9: fetch radius 100 around 0, waypoint 30, restriction radius 50: the new
radius is min(50, 70) = 50. -/
theorem restricted_region_radius_witness :
    (0 : ℤ) ≤ Line.world.restrictionRadius ∧
    (Line.fiveList.restricted Line.world 30).m_region.radius = 50 ∧
    (Line.fiveList.restricted Line.world 30).m_region.radius =
      min Line.world.restrictionRadius
        (max 0 (Line.fiveList.m_region.radius -
          Line.world.distanceTo Line.fiveList.m_region.center (Line.world.wpCoordinate 30))) :=
  ⟨by decide, by decide,
    (restricted_region_radius Line.world Line.fiveList 30 (by decide)).1⟩

/-- Counterexample to C10: the list was fetched for radius 1 around 0 and the waypoint is
at 2, outside. Distances on the line obey the triangle inequality. The new region has
radius 0 around 2, so it contains the point 2, which is at distance 2 > 1 from the centre
of the original region. -/
theorem restricted_region_escapes :
    (∀ a b c : ℤ, Line.world.distanceTo a c ≤
      Line.world.distanceTo a b + Line.world.distanceTo b c) ∧
    (Line.smallList.restricted Line.world 2).m_region.radius = 0 ∧
    Line.world.distanceTo (Line.world.wpCoordinate 2) 2 ≤
      (Line.smallList.restricted Line.world 2).m_region.radius ∧
    ¬ (Line.world.distanceTo Line.smallList.m_region.center 2 ≤
      Line.smallList.m_region.radius) :=
  ⟨fun a b c => abs_sub_le a b c, by decide, by decide, by decide⟩

/-- C10, amended. When distances obey the triangle inequality and the waypoint `w` lies in
the region of `l` (its distance from the centre is at most the radius), every point within
the new radius of `w` lies in the region of `l`. -/
theorem restricted_region_within (env : Env N T P G W D) (l : NotamList N T P D) (w : W)
    (htri : ∀ a b c : P, env.distanceTo a c ≤ env.distanceTo a b + env.distanceTo b c)
    (hin : env.distanceTo l.m_region.center (env.wpCoordinate w) ≤ l.m_region.radius)
    (p : P)
    (hp : env.distanceTo (env.wpCoordinate w) p ≤ (l.restricted env w).m_region.radius) :
    env.distanceTo l.m_region.center p ≤ l.m_region.radius := by
  have hrad : (l.restricted env w).m_region.radius = restrictedRadius env l w := rfl
  rw [hrad, restrictedRadius_eq] at hp
  have h1 : env.distanceTo (env.wpCoordinate w) p ≤
      l.m_region.radius - env.distanceTo l.m_region.center (env.wpCoordinate w) := by
    refine hp.trans ((min_le_right _ _).trans (le_of_eq (max_eq_right ?_)))
    exact sub_nonneg.2 hin
  calc env.distanceTo l.m_region.center p
      ≤ env.distanceTo l.m_region.center (env.wpCoordinate w) +
          env.distanceTo (env.wpCoordinate w) p := htri _ _ _
    _ ≤ env.distanceTo l.m_region.center (env.wpCoordinate w) +
          (l.m_region.radius - env.distanceTo l.m_region.center (env.wpCoordinate w)) :=
        add_le_add_left h1 _
    _ = l.m_region.radius := by abel

/-- Witness of C10, amended: fetch radius 100 around 0, waypoint 30 inside; the point 60 is
within the new radius 50 of the waypoint and within 100 of the centre. -/
theorem restricted_region_within_witness :
    Line.world.distanceTo Line.fiveList.m_region.center (Line.world.wpCoordinate 30) ≤
      Line.fiveList.m_region.radius ∧
    Line.world.distanceTo (Line.world.wpCoordinate 30) 60 ≤
      (Line.fiveList.restricted Line.world 30).m_region.radius ∧
    Line.world.distanceTo Line.fiveList.m_region.center 60 ≤ Line.fiveList.m_region.radius :=
  ⟨by decide, by decide,
    restricted_region_within Line.world Line.fiveList 30 (fun a b c => abs_sub_le a b c)
      (by decide) 60 (by decide)⟩

end Restricted

/-! ## First occurrences -/

section FirstOccurrences

variable {α κ : Type} [DecidableEq κ]

theorem firstOfEach_cons (key : α → κ) (a : α) (l : List α) :
    firstOfEach key (a :: l) =
      a :: (firstOfEach key l).filter (fun b => decide (key b ≠ key a)) := rfl

theorem firstOfEach_sublist (key : α → κ) (l : List α) : (firstOfEach key l).Sublist l := by
  induction l with
  | nil => exact List.Sublist.refl _
  | cons a l ih =>
    rw [firstOfEach_cons]
    exact (List.Sublist.trans (List.filter_sublist _) ih).cons₂ a

theorem firstOfEach_keys_nodup (key : α → κ) (l : List α) :
    ((firstOfEach key l).map key).Nodup := by
  induction l with
  | nil => simp [firstOfEach]
  | cons a l ih =>
    rw [firstOfEach_cons]
    rw [List.map_cons, List.nodup_cons]
    constructor
    · intro h
      obtain ⟨b, hb, hkey⟩ := List.mem_map.1 h
      have := (List.mem_filter.1 hb).2
      simp only [decide_eq_true_eq] at this
      exact this hkey
    · exact ih.sublist ((List.filter_sublist _).map key)

theorem firstOfEach_of_nodup (key : α → κ) (l : List α) (h : (l.map key).Nodup) :
    firstOfEach key l = l := by
  induction l with
  | nil => rfl
  | cons a l ih =>
    rw [List.map_cons, List.nodup_cons] at h
    rw [firstOfEach_cons]
    rw [ih h.2, List.filter_eq_self.2]
    intro b hb
    simp only [decide_eq_true_eq]
    intro hkey
    exact h.1 (hkey ▸ List.mem_map_of_mem key hb)

theorem filter_firstOfEach (key : α → κ) (q : α → Bool)
    (hq : ∀ a b, key a = key b → q a = q b) (l : List α) :
    (firstOfEach key l).filter q = firstOfEach key (l.filter q) := by
  induction l with
  | nil => rfl
  | cons a l ih =>
    by_cases ha : q a = true
    · rw [List.filter_cons_of_pos ha, firstOfEach_cons, firstOfEach_cons,
        List.filter_cons_of_pos ha, ← ih, List.filter_filter, List.filter_filter]
      congr 1
      apply List.filter_congr
      intro b _
      exact Bool.and_comm _ _
    · rw [List.filter_cons_of_neg ha, ← ih, firstOfEach_cons,
        List.filter_cons_of_neg ha, List.filter_filter]
      apply List.filter_congr
      intro b _
      by_cases hb : q b = true
      · have hne : key b ≠ key a := fun hkey => ha ((hq b a hkey) ▸ hb)
        simp [hb, hne]
      · simp [hb]

end FirstOccurrences

section KeepClosedForm

variable {N : Type} [DecidableEq N]

/-- The filter loop in closed form: it appends the first occurrences of the elements that
pass `p` and are not in `acc`. -/
theorem keep_foldl_eq (p : N → Bool) (xs : List N) :
    ∀ acc : List N, xs.foldl (keepStep p) acc =
      acc ++ (firstOfEach id (xs.filter p)).filter (fun b => decide (b ∉ acc)) := by
  induction xs with
  | nil => intro acc; simp [firstOfEach]
  | cons x xs ih =>
    intro acc
    rw [List.foldl_cons, ih]
    unfold keepStep
    by_cases hp : p x = true
    · rw [List.filter_cons_of_pos hp]
      by_cases hacc : x ∈ acc
      · rw [if_neg (fun h => h.2 hacc)]
        congr 1
        rw [firstOfEach_cons]
        rw [List.filter_cons_of_neg (by simpa using hacc), List.filter_filter]
        apply List.filter_congr
        intro b _
        by_cases hb : b ∈ acc
        · simp [hb]
        · have hne : b ≠ x := fun h => hb (h ▸ hacc)
          simp [hb, hne]
      · rw [if_pos ⟨hp, hacc⟩]
        rw [firstOfEach_cons]
        rw [List.filter_cons_of_pos (by simpa using hacc), List.filter_filter,
          List.append_assoc, List.singleton_append]
        congr 2
        apply List.filter_congr
        intro b _
        by_cases hb : b ∈ acc <;> by_cases hne : b = x <;> simp [hb, hne]
    · rw [List.filter_cons_of_neg hp, if_neg (fun h => hp h.1)]

theorem keep_foldl_nil (p : N → Bool) (xs : List N) :
    xs.foldl (keepStep p) [] = firstOfEach id (xs.filter p) := by
  rw [keep_foldl_eq, List.nil_append, List.filter_eq_self.2]
  intro b _
  simp

end KeepClosedForm

/-! ## First seen wins -/

section FirstSeen

variable {N T P G W D : Type}

theorem notamList_eq {a b : NotamList N T P D} (h1 : a.m_notams = b.m_notams)
    (h2 : a.m_region = b.m_region) (h3 : a.m_retrieved = b.m_retrieved) : a = b := by
  cases a
  cases b
  simp only [NotamList.mk.injEq]
  exact ⟨h1, h2, h3⟩

/-- The constructor's loop in closed form: it appends the first admissible notice of each
number that has not been seen. -/
theorem ctor_foldl_notams (env : Env N T P G W D) (items : List Json) :
    ∀ st : CtorState N, (items.foldl (ctorStep env) st).m_notams =
      st.m_notams ++
        (firstOfEach env.number
          ((items.map (itemNotam env)).filter (fun n => decide (Admissible env n)))).filter
          (fun n => decide (env.number n ∉ st.numbersSeen)) := by
  induction items with
  | nil => intro st; simp [firstOfEach]
  | cons item rest ih =>
    intro st
    rw [List.foldl_cons, ih, ctorStep_eq, List.map_cons]
    split_ifs with h1 h2
    · have hna : ¬ Admissible env (itemNotam env item) := fun h => h1.2 h.2.1
      rw [List.filter_cons_of_neg (by simpa using hna)]
    · rw [List.filter_cons_of_pos (by simpa using h2.1), firstOfEach_cons,
        List.filter_cons_of_pos (by simpa using h2.2), List.filter_filter]
      simp only [List.append_assoc, List.singleton_append]
      congr 2
      apply List.filter_congr
      intro b _
      by_cases hb : env.number b ∈ st.numbersSeen <;>
        by_cases hne : env.number b = env.number (itemNotam env item) <;>
        simp [hb, hne]
    · by_cases hadm : Admissible env (itemNotam env item)
      · have hseen : env.number (itemNotam env item) ∈ st.numbersSeen := by
          by_contra hns
          exact h2 ⟨hadm, hns⟩
        rw [List.filter_cons_of_pos (by simpa using hadm), firstOfEach_cons,
          List.filter_cons_of_neg (by simpa using hseen), List.filter_filter]
        congr 1
        apply List.filter_congr
        intro b _
        by_cases hb : env.number b ∈ st.numbersSeen
        · simp [hb]
        · have hne : env.number b ≠ env.number (itemNotam env item) := fun h => hb (h ▸ hseen)
          simp [hb, hne]
      · rw [List.filter_cons_of_neg (by simpa using hadm)]

/-- C17. The entries of a constructed list are the items that are valid, cancel nothing,
are not outdated and contain "V" in their traffic, in document order, each number
represented by the first such item only. Items that fail a check are removed before first
occurrences are taken, so they never suppress a later admissible item of the same number. -/
theorem constructed_first_seen (env : Env N T P G W D) (jsonDoc : Json)
    (region : QGeoCircle P D) (collector : Option (Finset String)) :
    (NotamList.construct env jsonDoc region collector).1.m_notams =
      firstOfEach env.number
        (((docItems jsonDoc).map (itemNotam env)).filter
          (fun n => env.isValid n && env.cancels n == "" && !env.isOutdated env.now n &&
            qContains (env.traffic n) "V")) := by
  have h := ctor_foldl_notams env (docItems jsonDoc) ⟨[], ∅, collector⟩
  simp only [List.nil_append, Finset.not_mem_empty, not_false_eq_true, decide_True] at h
  rw [List.filter_eq_self.2 (fun _ _ => rfl)] at h
  have hp : (fun n => decide (Admissible env n)) =
      (fun n => env.isValid n && env.cancels n == "" && !env.isOutdated env.now n &&
        qContains (env.traffic n) "V") := by
    funext n
    unfold Admissible
    by_cases hv : env.isValid n = true <;> by_cases hc : env.cancels n = "" <;>
      by_cases ho : env.isOutdated env.now n = true <;>
      by_cases ht : qContains (env.traffic n) "V" = true <;> simp [hv, hc, ho, ht]
  rw [hp] at h
  exact h

end FirstSeen

/-! ## Uniqueness of entries -/

section Uniqueness

variable {N T P G W D : Type} [DecidableEq N] [LinearOrder T] [LinearOrderedAddCommGroup D]

omit [LinearOrder T] [LinearOrderedAddCommGroup D] in
theorem cleaned_sublist (env : Env N T P G W D) (l : NotamList N T P D) (S : Finset String) :
    (l.cleaned env S).m_notams.Sublist l.m_notams := by
  obtain ⟨r, hr, hsub⟩ := keep_foldl_sublist (cleanedKeeps env S) l.m_notams []
  simp only [NotamList.cleaned, cleanedStep_eq, hr, List.nil_append]
  exact hsub

omit [LinearOrder T] in
theorem restrictedKept_sublist (env : Env N T P G W D) (l : NotamList N T P D) (w : W) :
    (restrictedKept env l w).Sublist l.m_notams := by
  obtain ⟨r, hr, hsub⟩ := keep_foldl_sublist (restrictedKeeps env w) l.m_notams []
  simp only [restrictedKept, restrictedStep_eq, hr, List.nil_append]
  exact hsub

omit [LinearOrder T] [LinearOrderedAddCommGroup D] in
theorem cleaned_nodup (env : Env N T P G W D) (l : NotamList N T P D) (S : Finset String) :
    (l.cleaned env S).m_notams.Nodup := by
  simp only [NotamList.cleaned, cleanedStep_eq]
  exact keep_foldl_nodup _ _ [] List.nodup_nil

omit [LinearOrder T] in
theorem restrictedKept_nodup (env : Env N T P G W D) (l : NotamList N T P D) (w : W) :
    (restrictedKept env l w).Nodup := by
  simp only [restrictedKept, restrictedStep_eq]
  exact keep_foldl_nodup _ _ [] List.nodup_nil

/-- C11. When the numbers of the entries of `l` are pairwise distinct, so are the numbers
of the entries of `l.cleaned(S)` and, with `std::sort` keeping its contract, of
`l.restricted(w)`. -/
theorem numbers_nodup_preserved (env : Env N T P G W D) (hsort : StdSortContract env.stdSort)
    (l : NotamList N T P D) (hl : (l.m_notams.map env.number).Nodup)
    (S : Finset String) (w : W) :
    ((l.cleaned env S).m_notams.map env.number).Nodup ∧
    ((l.restricted env w).m_notams.map env.number).Nodup := by
  constructor
  · exact hl.sublist ((cleaned_sublist env l S).map env.number)
  · rw [((restricted_perm env hsort l w).map env.number).nodup_iff]
    exact hl.sublist ((restrictedKept_sublist env l w).map env.number)

/-- Witness of C11: the five notices have five numbers; cleaning with "A0005/24" cancelled
leaves four entries, restricting to waypoint 4 leaves four. -/
theorem numbers_nodup_preserved_witness :
    StdSortContract Line.world.stdSort ∧
    (Line.fiveList.m_notams.map Line.world.number).Nodup ∧
    ((Line.fiveList.cleaned Line.world {"A0005/24"}).m_notams.map Line.world.number =
      ["A0001/24", "A0123/24", "A0404/24", "A0007/24"]) ∧
    (((Line.fiveList.cleaned Line.world {"A0005/24"}).m_notams.map Line.world.number).Nodup ∧
      ((Line.fiveList.restricted Line.world 4).m_notams.map Line.world.number).Nodup) :=
  ⟨stableSort_contract, by decide, by decide,
    numbers_nodup_preserved Line.world stableSort_contract Line.fiveList (by decide)
      {"A0005/24"} 4⟩

/-- Counterexample to C12: two different notices bear the number "A0001/24"; `cleaned` and
`restricted` keep both, so their results repeat a number. -/
theorem shared_number_survives :
    Line.world.number Line.a0001 = Line.world.number Line.a0001Moved ∧
    Line.a0001 ≠ Line.a0001Moved ∧
    (Line.sharedNumberList.cleaned Line.world ∅).m_notams = [Line.a0001, Line.a0001Moved] ∧
    ¬ ((Line.sharedNumberList.cleaned Line.world ∅).m_notams.map Line.world.number).Nodup ∧
    StdSortContract Line.world.stdSort ∧
    (Line.sharedNumberList.restricted Line.world 6).m_notams = [Line.a0001, Line.a0001Moved] ∧
    ¬ ((Line.sharedNumberList.restricted Line.world 6).m_notams.map Line.world.number).Nodup :=
  ⟨by decide, by decide, by decide, by decide, stableSort_contract, by decide, by decide⟩

/-- C12, amended. For every list `l`, no two entries of `l.cleaned(S)` are equal notices,
and with `std::sort` keeping its contract no two entries of `l.restricted(w)` are equal
notices: both operations de-duplicate by equality of the whole notice. -/
theorem entries_nodup (env : Env N T P G W D) (l : NotamList N T P D) (S : Finset String)
    (w : W) :
    (l.cleaned env S).m_notams.Nodup ∧
    (StdSortContract env.stdSort → (l.restricted env w).m_notams.Nodup) :=
  ⟨cleaned_nodup env l S,
    fun hsort => (restricted_perm env hsort l w).nodup_iff.2 (restrictedKept_nodup env l w)⟩

/-- Witness of C12, amended: a list that holds the same notice twice is cleaned and
restricted to a single entry. -/
theorem entries_nodup_witness :
    StdSortContract Line.world.stdSort ∧
    (Line.twiceList.cleaned Line.world ∅).m_notams = [Line.a0001] ∧
    (Line.twiceList.restricted Line.world 6).m_notams = [Line.a0001] ∧
    (Line.twiceList.restricted Line.world 6).m_notams.Nodup :=
  ⟨stableSort_contract, by decide, by decide,
    (entries_nodup Line.world Line.twiceList ∅ 6).2 stableSort_contract⟩

end Uniqueness

/-! ## Algebra of `cleaned` -/

section CleanedAlgebra

variable {N T P G W D : Type} [DecidableEq N]

theorem cleaned_notams_eq (env : Env N T P G W D) (l : NotamList N T P D) (S : Finset String) :
    (l.cleaned env S).m_notams = firstOfEach id (l.m_notams.filter (cleanedKeeps env S)) := by
  simp only [NotamList.cleaned, cleanedStep_eq, keep_foldl_nil]

theorem cleaned_cleaned_eq (env : Env N T P G W D) (l : NotamList N T P D)
    (A B : Finset String) :
    (l.cleaned env A).cleaned env B = l.cleaned env (A ∪ B) := by
  apply notamList_eq
  · rw [cleaned_notams_eq, cleaned_notams_eq, cleaned_notams_eq,
      ← filter_firstOfEach id _ (fun a b h => by rw [show a = b from h]),
      firstOfEach_of_nodup id _ (firstOfEach_keys_nodup id _),
      filter_firstOfEach id _ (fun a b h => by rw [show a = b from h]),
      List.filter_filter]
    congr 1
    apply List.filter_congr
    intro n _
    unfold cleanedKeeps
    by_cases hv : env.isValid n = true <;> by_cases ho : env.isOutdated env.now n = true <;>
      by_cases ha : env.number n ∈ A <;> by_cases hb : env.number n ∈ B <;>
      simp [hv, ho, ha, hb]
  · rfl
  · rfl

/-- C19. Cleaning with `A` and then with `B` gives the list that cleaning with `A ∪ B`
gives, in entries, region and retrieval time; hence cleaning twice with the same set is
cleaning once, and cleaning with `A` then `B` is cleaning with `B` then `A`. -/
theorem cleaned_compose (env : Env N T P G W D) (l : NotamList N T P D)
    (A B : Finset String) :
    (l.cleaned env A).cleaned env B = l.cleaned env (A ∪ B) ∧
    (l.cleaned env A).cleaned env A = l.cleaned env A ∧
    (l.cleaned env A).cleaned env B = (l.cleaned env B).cleaned env A := by
  refine ⟨cleaned_cleaned_eq env l A B, ?_, ?_⟩
  · rw [cleaned_cleaned_eq, Finset.union_self]
  · rw [cleaned_cleaned_eq, cleaned_cleaned_eq, Finset.union_comm]

/-- C20. With the clock unchanged, cleaning a freshly constructed list with nothing
cancelled returns the same list: same entries in the same order, same region, same
retrieval time. -/
theorem cleaned_empty_of_constructed (env : Env N T P G W D) (jsonDoc : Json)
    (region : QGeoCircle P D) (collector : Option (Finset String)) :
    (NotamList.construct env jsonDoc region collector).1.cleaned env ∅ =
      (NotamList.construct env jsonDoc region collector).1 := by
  obtain ⟨hadm, _, hnd⟩ := ctorInv_loop env jsonDoc collector
  apply notamList_eq
  · rw [cleaned_notams_eq]
    have hfilter : (NotamList.construct env jsonDoc region collector).1.m_notams.filter
        (cleanedKeeps env ∅) = (NotamList.construct env jsonDoc region collector).1.m_notams := by
      apply List.filter_eq_self.2
      intro n hn
      have h := hadm n hn
      simp [cleanedKeeps, h.1, h.2.2.1]
    rw [hfilter]
    apply firstOfEach_of_nodup
    rw [List.map_id]
    exact List.Nodup.of_map env.number hnd
  · rfl
  · rfl

end CleanedAlgebra

/-! ## Frame of the query operations -/

section Frame

variable {N T P G W D : Type} [DecidableEq N] [LinearOrder T] [LinearOrderedAddCommGroup D]

/-- C16. The list `l.cleaned(S)` has the region and the retrieval time of `l`, and
`l.restricted(w)` has the retrieval time of `l`. Both are new values computed from `l`;
`l` itself is an argument that neither operation can change. -/
theorem query_frame (env : Env N T P G W D) (l : NotamList N T P D) (S : Finset String)
    (w : W) :
    (l.cleaned env S).m_region = l.m_region ∧
    (l.cleaned env S).m_retrieved = l.m_retrieved ∧
    (l.restricted env w).m_retrieved = l.m_retrieved :=
  ⟨rfl, rfl, rfl⟩

omit [DecidableEq N] [LinearOrderedAddCommGroup D] in
/-- C18. For a fixed read state and a fixed clock the comparator of `restricted` is a
strict weak ordering: nothing comes before itself, coming before is transitive, and so is
being incomparable (neither before the other). -/
theorem sortLess_strict_weak (env : Env N T P G W D) :
    (∀ a : N, sortLess env a a = false) ∧
    (∀ a b c : N, sortLess env a b = true → sortLess env b c = true →
      sortLess env a c = true) ∧
    (∀ a b c : N, (sortLess env a b = false ∧ sortLess env b a = false) →
      (sortLess env b c = false ∧ sortLess env c b = false) →
      (sortLess env a c = false ∧ sortLess env c a = false)) := by
  obtain ⟨h1, h2, h3⟩ := sortLess_strictWeakOrdering env
  exact ⟨h1, h2, fun a b c hab hbc => h3 a b c hab.1 hab.2 hbc.1 hbc.2⟩

/-- Witness of C18: with "A0001/24" read and the clock at 100, "A0007/24" comes before
"A0123/24", which comes before "A0001/24", and so "A0007/24" comes before "A0001/24". -/
theorem sortLess_strict_weak_witness :
    sortLess Line.readWorld Line.a0007 Line.a0123 = true ∧
    sortLess Line.readWorld Line.a0123 Line.a0001 = true ∧
    sortLess Line.readWorld Line.a0007 Line.a0001 = true :=
  ⟨by decide, by decide,
    (sortLess_strict_weak Line.readWorld).2.1 Line.a0007 Line.a0123 Line.a0001
      (by decide) (by decide)⟩

end Frame

/-! ## summary -/

section SummaryProperties

variable {N T P G W D : Type}

/-- C15. The summary joins with " • " a first clause, "No NOTAMs known" for a list without
entries and "NOTAMs available" otherwise, and the clause "Update requested." exactly when
the list is not valid or is outdated; each clause passes through `tr`. Without translation,
a valid list that is not outdated and was built from an empty items array has the summary
"No NOTAMs known". -/
theorem summary_eq (tr : String → String) (isValid isOutdated : NotamList N T P D → Bool)
    (l : NotamList N T P D) :
    NotamList.summary tr isValid isOutdated l =
      String.intercalate " • "
        ([tr (if l.m_notams.isEmpty then "No NOTAMs known" else "NOTAMs available")] ++
          (if isValid l = false ∨ isOutdated l = true then [tr "Update requested."] else [])) ∧
    ∀ (env : Env N T P G W D) (jsonDoc : Json) (region : QGeoCircle P D)
      (collector : Option (Finset String)),
      docItems jsonDoc = [] →
      l = (NotamList.construct env jsonDoc region collector).1 →
      isValid l = true → isOutdated l = false →
      NotamList.summary id isValid isOutdated l = "No NOTAMs known" := by
  constructor
  · unfold NotamList.summary
    cases hl : l.m_notams <;> cases hv : isValid l <;> cases ho : isOutdated l <;> simp
  · intro env jsonDoc region collector hitems hl hv ho
    have hnil : l.m_notams = [] := by
      rw [hl]
      simp [NotamList.construct, ctorLoop, hitems]
    unfold NotamList.summary
    simp [hnil, hv, ho]
    rfl

/-- Witness of C15: the list built in the line world from an empty items array, taken as
valid and not outdated, has the summary "No NOTAMs known". -/
theorem summary_eq_witness :
    docItems (Line.doc []) = [] ∧
    NotamList.summary id (fun _ => true) (fun _ => false)
      (NotamList.construct Line.world (Line.doc []) Line.fetchRegion none).1 =
      "No NOTAMs known" :=
  ⟨rfl, (summary_eq id (fun _ => true) (fun _ => false)
    (NotamList.construct Line.world (Line.doc []) Line.fetchRegion none).1).2
    Line.world (Line.doc []) Line.fetchRegion none rfl rfl rfl rfl⟩

end SummaryProperties

/-! ## Serialization -/

section SerializationProperties

variable {N T P D : Type}

theorem byteCodec_roundTrips : Bytes.byteCodec.RoundTrips := fun _ _ => rfl

theorem circleCodec_roundTrips : Bytes.circleCodec.RoundTrips := fun _ _ => rfl

theorem listCodec_roundTrips : Bytes.listCodec.RoundTrips := by
  intro x rest
  show Bytes.decodeList (Bytes.encodeList x ++ rest) = some (x, rest)
  induction x with
  | nil => rfl
  | cons b l ih =>
    show Bytes.decodeList (1 :: b :: (Bytes.encodeList l ++ rest)) = some (b :: l, rest)
    rw [Bytes.decodeList, ih]

theorem get_of_decode {α : Type} (c : Codec α) (stream : QDataStream) (target x : α)
    (rest : List Byte) (h : c.decode stream.data = some (x, rest)) :
    c.get stream target = (⟨rest, stream.ok⟩, x) := by
  unfold Codec.get
  rw [h]

theorem get_of_decode_none {α : Type} (c : Codec α) (stream : QDataStream) (target : α)
    (h : c.decode stream.data = none) : (c.get stream target).1.ok = false := by
  unfold Codec.get
  rw [h]

theorem get_ok_le {α : Type} (c : Codec α) (stream : QDataStream) (target : α)
    (h : (c.get stream target).1.ok = true) :
    stream.ok = true ∧ ∃ x rest, c.decode stream.data = some (x, rest) ∧
      c.get stream target = (⟨rest, stream.ok⟩, x) := by
  cases hd : c.decode stream.data with
  | none => rw [get_of_decode_none c stream target hd] at h; exact absurd h (by simp)
  | some v =>
    have hg := get_of_decode c stream target v.1 v.2 hd
    rw [hg] at h
    exact ⟨h, v.1, v.2, rfl, hg⟩

/-- C13. When the stream operators of the three field types read back what they wrote and
stop where their own bytes end, writing a list to an empty stream puts the bytes of
`m_notams`, `m_region` and `m_retrieved` in this order, and reading these bytes (followed by
any further bytes) into any list returns the list written, entries, region and retrieval
time, with the further bytes left unread and the status `Ok`. -/
theorem stream_round_trip (cNotams : Codec (List N)) (cRegion : Codec (QGeoCircle P D))
    (cRetrieved : Codec T) (hN : cNotams.RoundTrips) (hR : cRegion.RoundTrips)
    (hT : cRetrieved.RoundTrips) (x target : NotamList N T P D) (rest : List Byte) :
    (streamOut cNotams cRegion cRetrieved ⟨[], true⟩ x).data =
      cNotams.encode x.m_notams ++ cRegion.encode x.m_region ++
        cRetrieved.encode x.m_retrieved ∧
    streamIn cNotams cRegion cRetrieved
      ⟨(streamOut cNotams cRegion cRetrieved ⟨[], true⟩ x).data ++ rest, true⟩ target =
      (⟨rest, true⟩, x) := by
  have hdata : (streamOut cNotams cRegion cRetrieved ⟨[], true⟩ x).data =
      cNotams.encode x.m_notams ++ cRegion.encode x.m_region ++
        cRetrieved.encode x.m_retrieved := by
    simp [streamOut, Codec.put]
  refine ⟨hdata, ?_⟩
  rw [hdata]
  unfold streamIn
  simp only [List.append_assoc]
  rw [get_of_decode cNotams _ _ x.m_notams _ (hN _ _)]
  simp only []
  rw [get_of_decode cRegion _ _ x.m_region _ (hR _ _)]
  simp only []
  rw [get_of_decode cRetrieved _ _ x.m_retrieved _ (hT _ _)]

/-- Witness of C13: in the world of bytes a list with two entries is written to an empty
stream and read back into a default-constructed list. -/
theorem stream_round_trip_witness :
    Bytes.listCodec.RoundTrips ∧ Bytes.circleCodec.RoundTrips ∧ Bytes.byteCodec.RoundTrips ∧
    (streamOut Bytes.listCodec Bytes.circleCodec Bytes.byteCodec ⟨[], true⟩ Bytes.sample).data =
      [1, 5, 1, 9, 0, 3, 100, 42] ∧
    streamIn Bytes.listCodec Bytes.circleCodec Bytes.byteCodec
      ⟨(streamOut Bytes.listCodec Bytes.circleCodec Bytes.byteCodec ⟨[], true⟩
        Bytes.sample).data ++ [], true⟩ Bytes.fresh = (⟨[], true⟩, Bytes.sample) :=
  ⟨listCodec_roundTrips, circleCodec_roundTrips, byteCodec_roundTrips, by decide,
    (stream_round_trip Bytes.listCodec Bytes.circleCodec Bytes.byteCodec listCodec_roundTrips
      circleCodec_roundTrips byteCodec_roundTrips Bytes.sample Bytes.fresh []).2⟩

/-- Counterexample to C14: the stream holds the sequence [5] and ends. Decoding the
sequence succeeds, decoding the region fails. The status reports the failure, but
`m_notams` of the default-constructed target now holds the decoded [5]. -/
theorem stream_in_not_atomic :
    Bytes.listCodec.decode Bytes.truncated.data = some ([5], []) ∧
    Bytes.circleCodec.decode [] = none ∧
    Bytes.fresh.m_notams = [] ∧
    (streamIn Bytes.listCodec Bytes.circleCodec Bytes.byteCodec Bytes.truncated
      Bytes.fresh).1.ok = false ∧
    (streamIn Bytes.listCodec Bytes.circleCodec Bytes.byteCodec Bytes.truncated
      Bytes.fresh).2.m_notams = [5] :=
  ⟨by decide, by decide, by decide, by decide, by decide⟩

/-- C14, amended. The stream `operator>>` returns has status `Ok` only if the stream had it
before and the notams sequence, the region and the retrieval time decode one after the
other, so every decoding failure is reported through the status. The read is not atomic:
when the notams sequence decodes, `m_notams` of the target holds the decoded sequence,
whether or not the later fields decode. -/
theorem stream_in_reports (cNotams : Codec (List N)) (cRegion : Codec (QGeoCircle P D))
    (cRetrieved : Codec T) (stream : QDataStream) (target : NotamList N T P D) :
    ((streamIn cNotams cRegion cRetrieved stream target).1.ok = true →
      stream.ok = true ∧ ∃ n rest1 g rest2 t rest3,
        cNotams.decode stream.data = some (n, rest1) ∧
        cRegion.decode rest1 = some (g, rest2) ∧
        cRetrieved.decode rest2 = some (t, rest3) ∧
        streamIn cNotams cRegion cRetrieved stream target = (⟨rest3, true⟩, ⟨n, g, t⟩)) ∧
    (∀ n rest1, cNotams.decode stream.data = some (n, rest1) →
      (streamIn cNotams cRegion cRetrieved stream target).2.m_notams = n) := by
  constructor
  · intro h
    unfold streamIn at h ⊢
    simp only [] at h ⊢
    obtain ⟨h3ok, t, rest3, h3d, h3g⟩ := get_ok_le cRetrieved _ _ h
    obtain ⟨h2ok, g, rest2, h2d, h2g⟩ := get_ok_le cRegion _ _ h3ok
    obtain ⟨h1ok, n, rest1, h1d, h1g⟩ := get_ok_le cNotams _ _ h2ok
    refine ⟨h1ok, n, rest1, g, rest2, t, rest3, h1d, ?_, ?_, ?_⟩
    · rw [h1g] at h2d
      exact h2d
    · rw [h1g] at h2g h3d
      rw [h2g] at h3d
      exact h3d
    · rw [h1g] at h2g
      simp only [h1g, h2g] at h3g ⊢
      rw [h3g, h1ok]
  · intro n rest1 hd
    unfold streamIn
    simp only []
    rw [get_of_decode cNotams _ _ n rest1 hd]

/-- Witness of C14, amended: the truncated stream of the world of bytes. -/
theorem stream_in_reports_witness :
    Bytes.listCodec.decode Bytes.truncated.data = some ([5], []) ∧
    (streamIn Bytes.listCodec Bytes.circleCodec Bytes.byteCodec Bytes.truncated
      Bytes.fresh).2.m_notams = [5] :=
  ⟨by decide,
    (stream_in_reports Bytes.listCodec Bytes.circleCodec Bytes.byteCodec Bytes.truncated
      Bytes.fresh).2 [5] [] (by decide)⟩

end SerializationProperties

end NOTAM
